import Mathlib

/-!
# Portfolio page script (`src/app.js`): cursor follower, ripple pool, contact form, Konami detector

A shallow embedding of the stateful parts of `src/app.js`.

* DOM elements are records of the properties the script touches
  (`dataset.busy`, `style.left`, `classList`, ...), kept as the strings the script writes.
* An element reference into `ripplePool` is the index of the element in the pool.
* Mutable script variables (`ripplePool`, `lastMove`, `currX`, `konamiCode`, ...) are
  passed explicitly as state.
* Pointer coordinates and timestamps are integers (`Int`); cursor interpolation is over `ℚ`.
-/

namespace Portfolio

/-! ## DOM helpers -/

/-- The method `classList.add(c)`: append the token unless it is already present. -/
def classListAdd (cs : List String) (c : String) : List String :=
  if c ∈ cs then cs else cs ++ [c]

/-- The method `classList.remove(c)`: drop the token. -/
def classListRemove (cs : List String) (c : String) : List String :=
  cs.filter (fun d => d ≠ c)

/-- Template literal with a number followed by `px`. -/
def px {α : Type} [ToString α] (n : α) : String := toString n ++ "px"

/-! ## Ripple pool (`src/app.js` lines 440-499) -/

/-- One pooled `div.ripple` element: the properties the script reads and writes. -/
structure RippleSlot where
  /-- The attribute `el.dataset.busy`. -/
  busy : String
  /-- The style property `el.style.left`. -/
  left : String
  /-- The style property `el.style.top`. -/
  top : String
  /-- The style property `el.style.width`. -/
  width : String
  /-- The style property `el.style.height`. -/
  height : String
  /-- The style property `el.style.animationDuration`. -/
  animationDuration : String
  /-- The tokens of `el.classList`, in order. -/
  classes : List String
  deriving DecidableEq, Repr

/-- The constant `POOL_SIZE`. -/
def POOL_SIZE : Nat := 10

/-- The constant `MOVE_INTERVAL` (milliseconds). -/
def MOVE_INTERVAL : Int := 90

/-- A freshly created pool element: `className = "ripple"`, `dataset.busy = "0"`,
no inline style. -/
def newRipple : RippleSlot :=
  { busy := "0", left := "", top := "", width := "", height := "",
    animationDuration := "", classes := ["ripple"] }

/-- The creation loop `for (let i = 0; i < POOL_SIZE; i++) ... ripplePool.push(el)`,
with `n` iterations left. -/
def pushRipples : Nat → List RippleSlot → List RippleSlot
  | 0, pool => pool
  | n + 1, pool => pushRipples n (pool ++ [newRipple])

/-- The array `ripplePool` after the creation loop. -/
def initPool : List RippleSlot := pushRipples POOL_SIZE []

/-- The `animationend` listener of one element. -/
def animationendSlot (el : RippleSlot) : RippleSlot :=
  { el with
    classes := classListRemove el.classes "ripple--play"
    busy := "0"
    width := ""
    height := ""
    left := ""
    top := "" }

/-- The `animationend` event delivered to the pool element with index `i`
(no element, no listener, when `i` is out of range). -/
def animationend (pool : List RippleSlot) (i : Nat) : List RippleSlot :=
  pool.modify animationendSlot i

/-- The loop of `getFreeRipple`: scan from index `i` on, return the index of the first
element whose `dataset.busy` is `"0"`. -/
def getFreeRippleFrom : List RippleSlot → Nat → Option Nat
  | [], _ => none
  | r :: rest, i => if r.busy = "0" then some i else getFreeRippleFrom rest (i + 1)

/-- The function `getFreeRipple()`: the returned element (as its pool index, `none` for
`null`) together with the pool as the call leaves it. -/
def getFreeRipple (pool : List RippleSlot) : Option Nat × List RippleSlot :=
  (getFreeRippleFrom pool 0, pool)

/-- Arguments of one `spawnRipple(x, y, size, duration, large)` call (every call in the
script passes all five). Coordinates are integers, size and duration are natural numbers,
for which the strings written to the style are valid CSS values and are stored as
written. -/
structure SpawnArgs where
  x : Int
  y : Int
  size : Nat
  duration : Nat
  large : Bool
  deriving DecidableEq, Repr

/-- The body of `spawnRipple` after a free element was found: what it writes to `el`. -/
def playRipple (el : RippleSlot) (a : SpawnArgs) : RippleSlot :=
  { busy := "1"
    left := px a.x
    top := px a.y
    width := px a.size
    height := px a.size
    animationDuration := toString a.duration ++ "ms"
    classes :=
      classListAdd
        (if a.large then classListAdd el.classes "ripple--large"
         else classListRemove el.classes "ripple--large")
        "ripple--play" }

/-- The function `spawnRipple(x, y, size, duration, large)` on a device whose touch
detection gave `isTouch`. None of its statements can throw; it is a total function of
the pool. -/
def spawnRipple (isTouch : Bool) (pool : List RippleSlot) (a : SpawnArgs) : List RippleSlot :=
  if isTouch && !a.large then pool
  else
    match getFreeRipple pool with
    | (none, pool1) => pool1
    | (some i, pool1) => pool1.modify (fun el => playRipple el a) i

/-- The ripple `mousemove` listener, as the new value of `lastMove` and the `spawnRipple`
call it makes (if any) for an event at `(x, y)` handled when `Date.now()` is `now`. -/
def mousemoveRipple (lastMove now x y : Int) : Int × Option SpawnArgs :=
  if now - lastMove > MOVE_INTERVAL then
    (now, some { x := x, y := y, size := 26, duration := 650, large := false })
  else (lastMove, none)

/-- The coordinates a `click` or `touchstart` event carries: `e.touches[0]` when the
event has touches, and `e.clientX`, `e.clientY`. -/
structure PointerEvent where
  touches0 : Option (Int × Int)
  clientX : Int
  clientY : Int
  deriving DecidableEq, Repr

/-- The `click` / `touchstart` listener: the `spawnRipple` call it makes. -/
def clickRipple (e : PointerEvent) : SpawnArgs :=
  let xy : Int × Int :=
    match e.touches0 with
    | some t => (t.1, t.2)
    | none => (e.clientX, e.clientY)
  { x := xy.1, y := xy.2, size := 80, duration := 900, large := true }

/-- The mutable variables of the ripple part of the script. -/
structure RippleState where
  ripplePool : List RippleSlot
  lastMove : Int
  deriving DecidableEq, Repr

/-- The ripple state once the script has run: the pool as created, `lastMove = 0`. -/
def initRippleState : RippleState := { ripplePool := initPool, lastMove := 0 }

/-- What can happen to the ripple pool after initialisation. -/
inductive RippleEvent where
  /-- A `mousemove` at `(x, y)` handled at time `now`. -/
  | mousemove (now x y : Int)
  /-- A `click` event. -/
  | click (e : PointerEvent)
  /-- A `touchstart` event. -/
  | touchstart (e : PointerEvent)
  /-- The animation of pool element `i` ended. -/
  | animationend (i : Nat)
  /-- A direct call of `spawnRipple` with arbitrary arguments. -/
  | spawn (a : SpawnArgs)
  deriving DecidableEq, Repr

/-- One event handled by the listeners the script registered. -/
def rippleStep (isTouch : Bool) (st : RippleState) : RippleEvent → RippleState
  | .mousemove now x y =>
    match mousemoveRipple st.lastMove now x y with
    | (lastMove1, some a) =>
      { ripplePool := spawnRipple isTouch st.ripplePool a, lastMove := lastMove1 }
    | (lastMove1, none) => { st with lastMove := lastMove1 }
  | .click e => { st with ripplePool := spawnRipple isTouch st.ripplePool (clickRipple e) }
  | .touchstart e => { st with ripplePool := spawnRipple isTouch st.ripplePool (clickRipple e) }
  | .animationend i => { st with ripplePool := animationend st.ripplePool i }
  | .spawn a => { st with ripplePool := spawnRipple isTouch st.ripplePool a }

/-- A finite sequence of events handled in order. -/
def rippleRun (isTouch : Bool) (st : RippleState) (evs : List RippleEvent) : RippleState :=
  evs.foldl (rippleStep isTouch) st

/-- Whether an element carries the playing class. -/
def isPlaying (el : RippleSlot) : Bool := decide ("ripple--play" ∈ el.classes)

/-- Number of pool elements that carry the playing class. -/
def activeRipples (pool : List RippleSlot) : Nat := pool.countP isPlaying

/-- Number of pool elements whose busy flag is `"1"`. -/
def busyRipples (pool : List RippleSlot) : Nat := pool.countP (fun el => decide (el.busy = "1"))

/-- The timestamps at which the `mousemove` listener calls `spawnRipple`, and the
arguments of each call, for moves handled at the given times from `lastMove`. -/
def moveSpawns (lastMove : Int) : List (Int × Int × Int) → List (Int × SpawnArgs)
  | [] => []
  | (now, x, y) :: rest =>
    match mousemoveRipple lastMove now x y with
    | (lastMove1, some a) => (now, a) :: moveSpawns lastMove1 rest
    | (lastMove1, none) => moveSpawns lastMove1 rest

/-! ## Cursor follower (`src/app.js` lines 368-438) -/

/-- The value written to `style.transform`:
`translate3d(x px, y px, 0) translate(-50%, -50%) scale(s)`, as its three numbers. -/
structure Transform where
  x : ℚ
  y : ℚ
  scale : ℚ
  deriving DecidableEq

/-- The variables of the cursor follower and the transforms of its two elements. -/
structure CursorState where
  targetX : ℚ
  targetY : ℚ
  currX : ℚ
  currY : ℚ
  cursorScale : ℚ
  /-- The value of `halo.style.transform`, once written. -/
  haloTransform : Option Transform
  /-- The value of `cursor.style.transform`, once written. -/
  cursorTransform : Option Transform
  deriving DecidableEq

/-- One frame of `animateCursor` (the function re-registers itself for the next frame). -/
def animateCursor (st : CursorState) : CursorState :=
  let currX := st.currX + (st.targetX - st.currX) * 0.18
  let currY := st.currY + (st.targetY - st.currY) * 0.18
  { st with
    currX := currX
    currY := currY
    haloTransform := some { x := currX, y := currY, scale := 1 + (st.cursorScale - 1) * 0.6 }
    cursorTransform := some { x := currX, y := currY, scale := st.cursorScale } }

/-! ## Initialisation (`src/app.js` lines 365-504) -/

/-- An exception thrown by the script. -/
inductive JsError where
  /-- A JavaScript `TypeError` with its message. -/
  | typeError (msg : String)
  deriving DecidableEq, Repr

/-- The parts of the browser environment the initialisation reads. -/
structure Env where
  /-- Value of `'ontouchstart' in window`. -/
  ontouchstart : Bool
  /-- Value of `navigator.maxTouchPoints`, `none` when the property is undefined. -/
  maxTouchPoints : Option Nat
  /-- The function `window.matchMedia`: `none` when it is undefined, else the `matches`
  field of its result for `(pointer: coarse)`. -/
  matchMedia : Option Bool
  /-- Whether `document.body` is an element (it is `null` before the body is parsed). -/
  hasBody : Bool
  /-- Value of `window.innerWidth`. -/
  innerWidth : ℚ
  /-- Value of `window.innerHeight`. -/
  innerHeight : ℚ

/-- The first statement: `'ontouchstart' in window || navigator.maxTouchPoints > 0 ||
window.matchMedia('(pointer: coarse)').matches`, evaluated left to right with
short-circuit; `undefined > 0` is `false`, calling an undefined `matchMedia` throws. -/
def detectTouch (env : Env) : Except JsError Bool :=
  if env.ontouchstart then .ok true
  else if (match env.maxTouchPoints with
           | some n => decide (n > 0)
           | none => false) then .ok true
  else
    match env.matchMedia with
    | some m => .ok m
    | none => .error (.typeError "window.matchMedia is not a function")

/-- The call `document.body.appendChild(el)`: throws when `document.body` is `null`. -/
def appendToBody (env : Env) : Except JsError Unit :=
  if env.hasBody then .ok ()
  else .error (.typeError "Cannot read properties of null (reading appendChild)")

/-- The pool creation loop inside the initialisation, each iteration appending its
element to `document.body` before pushing it, with `n` iterations left. -/
def createRipplePool (env : Env) : Nat → List RippleSlot → Except JsError (List RippleSlot)
  | 0, pool => .ok pool
  | n + 1, pool => do
    appendToBody env
    createRipplePool env n (pool ++ [newRipple])

/-- Everything the initialisation sets up. -/
structure AppState where
  isTouch : Bool
  /-- Tokens of `cursor.classList`. -/
  cursorClasses : List String
  /-- Tokens of `halo.classList`. -/
  haloClasses : List String
  cursorVisible : Bool
  cursor : CursorState
  ripple : RippleState

/-- The function `hideCursor`. -/
def hideCursor (st : AppState) : AppState :=
  { st with
    cursorClasses := classListAdd st.cursorClasses "cursor--hidden"
    haloClasses := classListAdd st.haloClasses "cursor--hidden"
    cursorVisible := false }

/-- The immediately invoked function `initCursorAndRipples`, statement by statement;
an error result is an exception leaving the function (it has no `try`). -/
def initCursorAndRipples (env : Env) : Except JsError AppState := do
  let isTouch ← detectTouch env
  let cursorClasses := ["cursor-follower", "cursor--hidden"]
  let haloClasses := ["cursor-halo", "cursor--hidden"]
  appendToBody env
  appendToBody env
  let targetX := env.innerWidth / 2
  let targetY := env.innerHeight / 2
  let cursor : CursorState :=
    { targetX := targetX, targetY := targetY, currX := targetX, currY := targetY,
      cursorScale := 1, haloTransform := none, cursorTransform := none }
  let ripplePool ← createRipplePool env POOL_SIZE []
  let st : AppState :=
    { isTouch := isTouch, cursorClasses := cursorClasses, haloClasses := haloClasses,
      cursorVisible := false, cursor := cursor,
      ripple := { ripplePool := ripplePool, lastMove := 0 } }
  if isTouch then .ok (hideCursor st) else .ok st

/-! ## Contact form (`src/app.js` lines 216-246) -/

/-- Regular expressions over characters, enough for the literal used by `isValidEmail`. -/
inductive Regex where
  /-- Matches nothing. -/
  | fail
  /-- Matches the empty string. -/
  | eps
  /-- Matches one character of a class. -/
  | cls (p : Char → Bool)
  /-- Concatenation. -/
  | seq (a b : Regex)
  /-- Alternation. -/
  | alt (a b : Regex)
  /-- Zero or more repetitions. -/
  | star (a : Regex)

namespace Regex

/-- One or more repetitions, the quantifier `+`. -/
def plus (a : Regex) : Regex := seq a (star a)

/-- Whether the expression matches the empty string. -/
def nullable : Regex → Bool
  | fail => false
  | eps => true
  | cls _ => false
  | seq a b => nullable a && nullable b
  | alt a b => nullable a || nullable b
  | star _ => true

/-- The expression matching what is left after reading `c`. -/
def deriv (c : Char) : Regex → Regex
  | fail => fail
  | eps => fail
  | cls p => if p c then eps else fail
  | seq a b => if nullable a then alt (seq (deriv c a) b) (deriv c b) else seq (deriv c a) b
  | alt a b => alt (deriv c a) (deriv c b)
  | star a => seq (deriv c a) (star a)

/-- Whether the expression matches the whole list of characters. -/
def matchesChars (r : Regex) : List Char → Bool
  | [] => nullable r
  | c :: cs => matchesChars (deriv c r) cs

/-- The method `test` for an expression anchored with `^` and `$`. -/
def test (r : Regex) (s : String) : Bool := matchesChars r s.toList

end Regex

/-- The class `\s` of ECMAScript: white space and line terminators. -/
def isJsSpace (c : Char) : Bool :=
  let n := c.toNat
  (0x09 ≤ n && n ≤ 0x0D) || n == 0x20 || n == 0xA0 || n == 0x1680 ||
  (0x2000 ≤ n && n ≤ 0x200A) || n == 0x2028 || n == 0x2029 || n == 0x202F ||
  n == 0x205F || n == 0x3000 || n == 0xFEFF

/-- The class `[^\s@]`. -/
def notSpaceAt (c : Char) : Bool := !isJsSpace c && c != '@'

/-- The literal `/^[^\s@]+@[^\s@]+\.[^\s@]+$/`. -/
def emailRegex : Regex :=
  .seq (.plus (.cls notSpaceAt))
    (.seq (.cls (fun c => c == '@'))
      (.seq (.plus (.cls notSpaceAt))
        (.seq (.cls (fun c => c == '.')) (.plus (.cls notSpaceAt)))))

/-- The function `isValidEmail(email)`. -/
def isValidEmail (email : String) : Bool := emailRegex.test email

/-- What the submit listener does to the page. -/
inductive FormEffect where
  /-- The call `e.preventDefault()`. -/
  | preventDefault
  /-- The call `showNotification(message, type)`. -/
  | showNotification (message type : String)
  /-- The call `contactForm.reset()`. -/
  | reset
  deriving DecidableEq, Repr

/-- The operator `!v` on a form value: `null` (field missing) and the empty string are
falsy. -/
def jsNot : Option String → Bool
  | none => true
  | some s => s == ""

/-- The submit listener of the contact form, given what `formData.get` returns for
`name`, `email` and `message`; the result lists its effects in order. -/
def submitHandler (name email message : Option String) : List FormEffect :=
  let _ := name
  if jsNot email || jsNot message then
    [.preventDefault, .showNotification "Please fill in all fields" "error"]
  else if !isValidEmail (email.getD "") then
    [.preventDefault, .showNotification "Please enter a valid email address" "error"]
  else
    [.preventDefault,
     .showNotification "Thank you for your message! I\x27ll get back to you soon." "success",
     .reset]

/-! ## Konami code detector (`src/app.js` lines 526-552) -/

/-- The constant `konamiSequence`. -/
def konamiSequence : List String :=
  ["ArrowUp", "ArrowUp", "ArrowDown", "ArrowDown", "ArrowLeft", "ArrowRight",
   "ArrowLeft", "ArrowRight", "KeyB", "KeyA"]

/-- The variable `konamiCode` and what `activateEasterEgg` leaves behind. -/
structure KonamiState where
  konamiCode : List String
  /-- The value of `document.body.style.filter` written by the script, if any. -/
  bodyFilter : Option String
  /-- Number of `setTimeout` callbacks registered by `activateEasterEgg`, one per call. -/
  timeouts : Nat
  deriving DecidableEq, Repr

/-- The state when the script has loaded: `konamiCode = []`. -/
def initKonami : KonamiState := { konamiCode := [], bodyFilter := none, timeouts := 0 }

/-- The function `activateEasterEgg`. -/
def activateEasterEgg (st : KonamiState) : KonamiState :=
  { bodyFilter := some "hue-rotate(180deg)"
    timeouts := st.timeouts + 1
    konamiCode := [] }

/-- The `keydown` listener for an event with `e.code = code`. Two arrays of strings have
the same `JSON.stringify` text exactly when they are equal. -/
def keydown (st : KonamiState) (code : String) : KonamiState :=
  let pushed := st.konamiCode ++ [code]
  let shifted := if pushed.length > konamiSequence.length then pushed.tail else pushed
  let st1 := { st with konamiCode := shifted }
  if shifted = konamiSequence then activateEasterEgg st1 else st1

/-- All `keydown` events of a key history handled in order from the initial state. -/
def keydowns (codes : List String) : KonamiState := codes.foldl keydown initKonami

/-- Whether the `keydown` listener calls `activateEasterEgg` for `code` in state `st`
(each call registers one more timeout). -/
def activates (st : KonamiState) (code : String) : Bool :=
  decide ((keydown st code).timeouts = st.timeouts + 1)

/-- The `n` most recent codes of a key history (all of it when it is shorter). -/
def lastCodes (n : Nat) (codes : List String) : List String :=
  codes.drop (codes.length - n)

/-! ## Auxiliary definitions for the statements -/

/-- The shape every pool element keeps: either free (`busy = "0"`) and not playing, or
busy (`busy = "1"`) and playing; the class list is `ripple`, then `ripple--large` if
present, then `ripple--play` if present. -/
def SlotOK (el : RippleSlot) : Prop :=
  (el.busy = "0" ∧ (el.classes = ["ripple"] ∨ el.classes = ["ripple", "ripple--large"])) ∨
  (el.busy = "1" ∧ (el.classes = ["ripple", "ripple--play"] ∨
    el.classes = ["ripple", "ripple--large", "ripple--play"]))

/-- The value of `lastMove` after the `mousemove` listener handled the given moves. -/
def lastMoveAfter (lastMove : Int) (moves : List (Int × Int × Int)) : Int :=
  moves.foldl (fun lm m => (mousemoveRipple lm m.1 m.2.1 m.2.2).1) lastMove

/-- The throttle as the specification words it: the first move spawns, and a later move
spawns exactly when it is not closer than 90 ms to the last move that spawned.
`last` is the time of the last spawning move, `none` before the first move. -/
def specMoveSpawnTimes : Option Int → List Int → List Int
  | _, [] => []
  | none, t :: rest => t :: specMoveSpawnTimes (some t) rest
  | some last, t :: rest =>
    if t - last ≥ 90 then t :: specMoveSpawnTimes (some t) rest
    else specMoveSpawnTimes (some last) rest

/-- The array `konamiCode` after the push and the conditional `shift()` of the `keydown`
listener, before the comparison. -/
def shiftedCodes (buf : List String) (code : String) : List String :=
  if (buf ++ [code]).length > konamiSequence.length then (buf ++ [code]).tail
  else buf ++ [code]

/-! ## Auxiliary definitions for the email test -/

/-- The language of an expression: `Matches r cs` when `r` matches the whole of `cs`. -/
inductive Regex.Matches : Regex → List Char → Prop
  | eps : Matches .eps []
  | cls (p : Char → Bool) (c : Char) : p c = true → Matches (.cls p) [c]
  | seq {a b : Regex} {s t : List Char} :
      Matches a s → Matches b t → Matches (.seq a b) (s ++ t)
  | altLeft {a b : Regex} {s : List Char} : Matches a s → Matches (.alt a b) s
  | altRight {a b : Regex} {s : List Char} : Matches b s → Matches (.alt a b) s
  | starNil {a : Regex} : Matches (.star a) []
  | starCons {a : Regex} {s t : List Char} :
      Matches a s → Matches (.star a) t → Matches (.star a) (s ++ t)

/-- The part of a text before its first `@` (all of it when it has none). -/
def beforeAt (cs : List Char) : List Char := cs.takeWhile (fun c => c != '@')

/-- The part of a text after its first `@` (empty when it has none). -/
def afterAt (cs : List Char) : List Char := (cs.dropWhile (fun c => c != '@')).drop 1

/-- The email test as the specification words it: no whitespace character, exactly one
`@`, at least one character before the `@`, and in the part after the `@` a `.` that is
neither its first nor its last character. -/
def specValidEmail (s : String) : Bool :=
  s.toList.all (fun ch => !isJsSpace ch) &&
  s.toList.count '@' == 1 &&
  !(beforeAt s.toList).isEmpty &&
  (List.range (afterAt s.toList).length).any (fun i =>
    decide (0 < i) && decide (i + 1 < (afterAt s.toList).length) &&
      (afterAt s.toList)[i]? == some '.')

/-! # Theorems -/

/-! ## Lemmas on the pool scan -/

theorem getFreeRippleFrom_succ (pool : List RippleSlot) (k : Nat) :
    getFreeRippleFrom pool (k + 1) = (getFreeRippleFrom pool k).map (· + 1) := by
  induction pool generalizing k with
  | nil => rfl
  | cons r rest ih =>
    simp only [getFreeRippleFrom]
    split
    · rfl
    · exact ih (k + 1)

theorem getFreeRippleFrom_cons (r : RippleSlot) (rest : List RippleSlot) :
    getFreeRippleFrom (r :: rest) 0 =
      if r.busy = "0" then some 0 else (getFreeRippleFrom rest 0).map (· + 1) := by
  simp only [getFreeRippleFrom]
  split
  · rfl
  · exact getFreeRippleFrom_succ rest 0

theorem getFreeRippleFrom_eq_none (pool : List RippleSlot) :
    getFreeRippleFrom pool 0 = none ↔ ∀ el ∈ pool, el.busy ≠ "0" := by
  induction pool with
  | nil => simp [getFreeRippleFrom]
  | cons r rest ih =>
    rw [getFreeRippleFrom_cons]
    by_cases h : r.busy = "0"
    · simp [h]
    · simp [h, ih]

theorem getFreeRippleFrom_eq_some (pool : List RippleSlot) (i : Nat) :
    getFreeRippleFrom pool 0 = some i ↔
      (∃ el, pool[i]? = some el ∧ el.busy = "0") ∧
        ∀ j, j < i → ∀ el, pool[j]? = some el → el.busy ≠ "0" := by
  induction pool generalizing i with
  | nil => simp [getFreeRippleFrom]
  | cons r rest ih =>
    rw [getFreeRippleFrom_cons]
    by_cases h : r.busy = "0"
    · simp only [h, if_true]
      constructor
      · intro hi
        have hi0 : i = 0 := by simpa using hi.symm
        subst hi0
        simp [h]
      · rintro ⟨_, hall⟩
        cases i with
        | zero => rfl
        | succ n => exact absurd h (hall 0 (Nat.succ_pos n) r (by simp))
    · simp only [h, if_false]
      cases i with
      | zero =>
        simp [h]
      | succ n =>
        simp only [Option.map_eq_some', Nat.add_right_cancel_iff, exists_eq_right, ih n,
          List.getElem?_cons_succ]
        constructor
        · rintro ⟨hel, hall⟩
          refine ⟨hel, ?_⟩
          intro j hj el hjel
          cases j with
          | zero =>
            simp at hjel
            subst hjel
            exact h
          | succ m =>
            exact hall m (by omega) el (by simpa using hjel)
        · rintro ⟨hel, hall⟩
          refine ⟨hel, ?_⟩
          intro j hj el hjel
          exact hall (j + 1) (by omega) el (by simpa using hjel)

theorem spawnRipple_cons (isTouch : Bool) (r : RippleSlot) (rest : List RippleSlot)
    (a : SpawnArgs) (hgate : (isTouch && !a.large) = false) :
    spawnRipple isTouch (r :: rest) a =
      if r.busy = "0" then playRipple r a :: rest else r :: spawnRipple isTouch rest a := by
  simp only [spawnRipple, hgate, getFreeRipple, getFreeRippleFrom_cons]
  by_cases h : r.busy = "0"
  · simp [h]
  · simp only [h, if_false]
    cases hfree : getFreeRippleFrom rest 0 with
    | none => simp
    | some i => simp

theorem spawnRipple_nil (isTouch : Bool) (a : SpawnArgs) : spawnRipple isTouch [] a = [] := by
  simp only [spawnRipple, getFreeRipple, getFreeRippleFrom]
  split <;> simp

theorem spawnRipple_gated (pool : List RippleSlot) (a : SpawnArgs) (isTouch : Bool)
    (hgate : (isTouch && !a.large) = true) : spawnRipple isTouch pool a = pool := by
  simp [spawnRipple, hgate]

/-! ## The pool invariant -/

theorem initPool_eq : initPool = List.replicate 10 newRipple := by decide

theorem slotOK_newRipple : SlotOK newRipple := by
  unfold SlotOK newRipple
  simp

theorem slotOK_animationendSlot (el : RippleSlot) (h : SlotOK el) :
    SlotOK (animationendSlot el) := by
  unfold SlotOK at h ⊢
  rcases h with ⟨_, hc | hc⟩ | ⟨_, hc | hc⟩ <;>
    simp [animationendSlot, classListRemove, hc, List.filter]

theorem slotOK_playRipple (el : RippleSlot) (a : SpawnArgs) (h : SlotOK el)
    (hfree : el.busy = "0") : SlotOK (playRipple el a) := by
  unfold SlotOK at h ⊢
  rcases h with ⟨_, hc | hc⟩ | ⟨hb, _⟩
  · cases hl : a.large <;>
      simp [playRipple, classListAdd, classListRemove, hc, hl, List.filter]
  · cases hl : a.large <;>
      simp [playRipple, classListAdd, classListRemove, hc, hl, List.filter]
  · rw [hfree] at hb
    exact absurd hb (by decide)

theorem slotOK_playing_iff (el : RippleSlot) (h : SlotOK el) :
    "ripple--play" ∈ el.classes ↔ el.busy = "1" := by
  unfold SlotOK at h
  rcases h with ⟨hb, hc | hc⟩ | ⟨hb, hc | hc⟩ <;> simp [hb, hc]

theorem slotOK_flag (el : RippleSlot) (h : SlotOK el) : el.busy = "0" ∨ el.busy = "1" := by
  unfold SlotOK at h
  rcases h with ⟨hb, _⟩ | ⟨hb, _⟩
  · exact Or.inl hb
  · exact Or.inr hb

theorem forall_mem_modify {P : RippleSlot → Prop} (f : RippleSlot → RippleSlot)
    (pool : List RippleSlot) (i : Nat) (h : ∀ el ∈ pool, P el)
    (hf : ∀ el, pool[i]? = some el → P (f el)) : ∀ el ∈ pool.modify f i, P el := by
  intro el hel
  obtain ⟨m, hm⟩ := List.mem_iff_getElem?.mp hel
  rw [List.getElem?_modify] at hm
  cases hget : pool[m]? with
  | none => simp [hget] at hm
  | some e =>
    simp only [hget, Option.map_eq_map, Option.map_some', Option.some.injEq] at hm
    by_cases him : i = m
    · subst him
      simp only [if_true] at hm
      rw [← hm]
      exact hf e hget
    · simp only [him, if_false] at hm
      rw [← hm]
      exact h e (List.mem_iff_getElem?.mpr ⟨m, hget⟩)

theorem allOK_animationend (pool : List RippleSlot) (i : Nat) (h : ∀ el ∈ pool, SlotOK el) :
    ∀ el ∈ animationend pool i, SlotOK el := by
  unfold animationend
  apply forall_mem_modify _ _ _ h
  intro el hel
  exact slotOK_animationendSlot el (h el (List.mem_iff_getElem?.mpr ⟨i, hel⟩))

theorem length_spawnRipple (isTouch : Bool) (pool : List RippleSlot) (a : SpawnArgs) :
    (spawnRipple isTouch pool a).length = pool.length := by
  simp only [spawnRipple, getFreeRipple]
  split
  · rfl
  · split <;> simp_all

theorem allOK_spawnRipple (isTouch : Bool) (pool : List RippleSlot) (a : SpawnArgs)
    (h : ∀ el ∈ pool, SlotOK el) : ∀ el ∈ spawnRipple isTouch pool a, SlotOK el := by
  cases hgate : (isTouch && !a.large) with
  | true => rw [spawnRipple_gated pool a isTouch hgate]; exact h
  | false =>
    induction pool with
    | nil => rw [spawnRipple_nil]; exact h
    | cons r rest ih =>
      rw [spawnRipple_cons isTouch r rest a hgate]
      have hr : SlotOK r := h r (List.mem_cons_self r rest)
      have hrest : ∀ el ∈ rest, SlotOK el := fun el hel => h el (List.mem_cons_of_mem r hel)
      by_cases hb : r.busy = "0"
      · simp only [hb, if_true, List.mem_cons]
        rintro el (rfl | hel)
        · exact slotOK_playRipple r a hr hb
        · exact hrest el hel
      · simp only [hb, if_false, List.mem_cons]
        rintro el (rfl | hel)
        · exact hr
        · exact ih hrest el hel

/-- The invariant of the ripple state: ten elements, each of the expected shape. -/
theorem rippleStep_inv (isTouch : Bool) (st : RippleState) (ev : RippleEvent)
    (h : st.ripplePool.length = 10 ∧ ∀ el ∈ st.ripplePool, SlotOK el) :
    (rippleStep isTouch st ev).ripplePool.length = 10 ∧
      ∀ el ∈ (rippleStep isTouch st ev).ripplePool, SlotOK el := by
  obtain ⟨hlen, hok⟩ := h
  cases ev with
  | mousemove now x y =>
    simp only [rippleStep, mousemoveRipple]
    split_ifs
    · exact ⟨by simp [length_spawnRipple, hlen], allOK_spawnRipple _ _ _ hok⟩
    · exact ⟨hlen, hok⟩
  | click e => exact ⟨by simp [rippleStep, length_spawnRipple, hlen], allOK_spawnRipple _ _ _ hok⟩
  | touchstart e =>
    exact ⟨by simp [rippleStep, length_spawnRipple, hlen], allOK_spawnRipple _ _ _ hok⟩
  | animationend i =>
    exact ⟨by simp [rippleStep, animationend, hlen], allOK_animationend _ _ hok⟩
  | spawn a => exact ⟨by simp [rippleStep, length_spawnRipple, hlen], allOK_spawnRipple _ _ _ hok⟩

theorem rippleRun_inv (isTouch : Bool) (evs : List RippleEvent) (st : RippleState)
    (h : st.ripplePool.length = 10 ∧ ∀ el ∈ st.ripplePool, SlotOK el) :
    (rippleRun isTouch st evs).ripplePool.length = 10 ∧
      ∀ el ∈ (rippleRun isTouch st evs).ripplePool, SlotOK el := by
  induction evs generalizing st with
  | nil => exact h
  | cons ev rest ih => exact ih (rippleStep isTouch st ev) (rippleStep_inv isTouch st ev h)

theorem initRippleState_inv :
    initRippleState.ripplePool.length = 10 ∧ ∀ el ∈ initRippleState.ripplePool, SlotOK el := by
  refine ⟨by decide, ?_⟩
  intro el hel
  have : el = newRipple := by
    simp only [initRippleState, initPool_eq] at hel
    exact List.eq_of_mem_replicate hel
  rw [this]
  exact slotOK_newRipple

/-- C1. In every state reachable from the initial pool by any finite sequence of
spawns (move-, click- or touch-triggered, or direct calls with any arguments) and
`animationend` completions, on either device type, the pool holds exactly 10 elements,
an element carries the class `ripple--play` only if its busy flag is `"1"`, and at most
10 ripples are active. -/
theorem ripple_pool_bound (isTouch : Bool) (evs : List RippleEvent) :
    (rippleRun isTouch initRippleState evs).ripplePool.length = 10 ∧
    (∀ el ∈ (rippleRun isTouch initRippleState evs).ripplePool,
      "ripple--play" ∈ el.classes → el.busy = "1") ∧
    activeRipples (rippleRun isTouch initRippleState evs).ripplePool ≤ 10 := by
  obtain ⟨hlen, hok⟩ := rippleRun_inv isTouch evs initRippleState initRippleState_inv
  refine ⟨hlen, fun el hel hp => (slotOK_playing_iff el (hok el hel)).mp hp, ?_⟩
  unfold activeRipples
  calc List.countP isPlaying (rippleRun isTouch initRippleState evs).ripplePool
      ≤ (rippleRun isTouch initRippleState evs).ripplePool.length := List.countP_le_length _
    _ = 10 := hlen

/-! ## Acquire and drop -/

/-- C2. For every pool whose busy flags are `"0"` or `"1"`, `getFreeRipple()` leaves the
pool as it is, returns element `i` exactly when element `i` is free and every element
before it is busy, and returns `null` exactly when every element is busy. -/
theorem getFreeRipple_first_free (pool : List RippleSlot)
    (hflags : ∀ el ∈ pool, el.busy = "0" ∨ el.busy = "1") :
    (getFreeRipple pool).2 = pool ∧
    (∀ i, (getFreeRipple pool).1 = some i ↔
      (∃ el, pool[i]? = some el ∧ el.busy = "0") ∧
        ∀ j, j < i → ∀ el, pool[j]? = some el → el.busy = "1") ∧
    ((getFreeRipple pool).1 = none ↔ ∀ el ∈ pool, el.busy = "1") := by
  have hne : ∀ el ∈ pool, (el.busy ≠ "0" ↔ el.busy = "1") := by
    intro el hel
    constructor
    · intro h0
      exact (hflags el hel).resolve_left h0
    · intro h1 h0
      rw [h0] at h1
      exact absurd h1 (by decide)
  refine ⟨rfl, ?_, ?_⟩
  · intro i
    simp only [getFreeRipple, getFreeRippleFrom_eq_some]
    constructor
    · rintro ⟨hel, hall⟩
      exact ⟨hel, fun j hj el hjel =>
        (hne el (List.mem_iff_getElem?.mpr ⟨j, hjel⟩)).mp (hall j hj el hjel)⟩
    · rintro ⟨hel, hall⟩
      exact ⟨hel, fun j hj el hjel =>
        (hne el (List.mem_iff_getElem?.mpr ⟨j, hjel⟩)).mpr (hall j hj el hjel)⟩
  · simp only [getFreeRipple, getFreeRippleFrom_eq_none]
    constructor
    · intro h el hel
      exact (hne el hel).mp (h el hel)
    · intro h el hel
      exact (hne el hel).mpr (h el hel)

theorem getFreeRipple_first_free_witness :
    (getFreeRipple
        (rippleRun false initRippleState
          [.click ⟨none, 5, 7⟩, .click ⟨none, 8, 9⟩, .animationend 0]).ripplePool).1 = some 0 ∧
      (getFreeRipple (spawnRipple false initPool ⟨1, 2, 80, 900, true⟩)).1 = some 1 := by
  constructor
  · exact ((getFreeRipple_first_free _ (by decide)).2.1 0).mpr (by decide)
  · exact ((getFreeRipple_first_free _ (by decide)).2.1 1).mpr (by decide)

theorem spawnRipple_of_full (isTouch : Bool) (pool : List RippleSlot) (a : SpawnArgs)
    (hfull : ∀ el ∈ pool, el.busy ≠ "0") : spawnRipple isTouch pool a = pool := by
  have hnone : getFreeRippleFrom pool 0 = none := (getFreeRippleFrom_eq_none pool).mpr hfull
  simp only [spawnRipple, getFreeRipple, hnone]
  split <;> rfl

theorem busyRipples_spawnRipple (isTouch : Bool) (pool : List RippleSlot) (a : SpawnArgs)
    (hgate : (isTouch && !a.large) = false) (hfree : ∃ el ∈ pool, el.busy = "0") :
    busyRipples (spawnRipple isTouch pool a) = busyRipples pool + 1 := by
  induction pool with
  | nil => simp at hfree
  | cons r rest ih =>
    rw [spawnRipple_cons isTouch r rest a hgate]
    by_cases hb : r.busy = "0"
    · simp [hb, busyRipples, playRipple, List.countP_cons]
    · have hrest : ∃ el ∈ rest, el.busy = "0" := by
        obtain ⟨el, hel, h0⟩ := hfree
        rcases List.mem_cons.mp hel with rfl | hmem
        · exact absurd h0 hb
        · exact ⟨el, hmem, h0⟩
      have := ih hrest
      simp only [busyRipples] at this
      simp only [hb, if_false, busyRipples, List.countP_cons, this]
      omega

theorem busyRipples_clicks (isTouch : Bool) (es : List PointerEvent) (st : RippleState)
    (h : st.ripplePool.length = 10 ∧ ∀ el ∈ st.ripplePool, SlotOK el) :
    busyRipples (rippleRun isTouch st (es.map RippleEvent.click)).ripplePool =
      min (busyRipples st.ripplePool + es.length) 10 := by
  induction es generalizing st with
  | nil =>
    have : busyRipples st.ripplePool ≤ 10 := by
      rw [← h.1]; exact List.countP_le_length _
    simp [rippleRun, this]
  | cons e rest ih =>
    have hstep := rippleStep_inv isTouch st (.click e) h
    have := ih (rippleStep isTouch st (.click e)) hstep
    simp only [List.map_cons, rippleRun, List.foldl_cons] at this ⊢
    rw [this]
    have hgate : (isTouch && !(clickRipple e).large) = false := by simp [clickRipple]
    by_cases hfull : ∀ el ∈ st.ripplePool, el.busy ≠ "0"
    · have h10 : busyRipples st.ripplePool = 10 := by
        rw [← h.1]
        unfold busyRipples
        rw [List.countP_eq_length]
        intro el hel
        have := (slotOK_flag el (h.2 el hel)).resolve_left (hfull el hel)
        simpa using this
      simp only [rippleStep, spawnRipple_of_full isTouch _ _ hfull, h10]
      omega
    · have hfree : ∃ el ∈ st.ripplePool, el.busy = "0" := by
        push_neg at hfull
        exact hfull
      simp only [rippleStep, busyRipples_spawnRipple isTouch _ _ hgate hfree, List.length_cons]
      congr 1
      omega

/-- C3. When every pool element is busy, `spawnRipple` with any arguments on either
device type returns the pool unchanged, element for element. From the initial state,
after 10 clicks at any coordinates all 10 elements are busy, and an 11th click leaves
the whole ripple state as it was, with exactly 10 busy elements. -/
theorem spawnRipple_dropped_when_full :
    (∀ (isTouch : Bool) (pool : List RippleSlot) (a : SpawnArgs),
      (∀ el ∈ pool, el.busy = "1") → spawnRipple isTouch pool a = pool) ∧
    (∀ (isTouch : Bool) (es : List PointerEvent) (e : PointerEvent), es.length = 10 →
      busyRipples (rippleRun isTouch initRippleState (es.map RippleEvent.click)).ripplePool
          = 10 ∧
        rippleRun isTouch initRippleState ((es ++ [e]).map RippleEvent.click) =
          rippleRun isTouch initRippleState (es.map RippleEvent.click) ∧
        busyRipples
          (rippleRun isTouch initRippleState ((es ++ [e]).map RippleEvent.click)).ripplePool
          = 10) := by
  have hgen : ∀ (isTouch : Bool) (pool : List RippleSlot) (a : SpawnArgs),
      (∀ el ∈ pool, el.busy = "1") → spawnRipple isTouch pool a = pool := by
    intro isTouch pool a hfull
    apply spawnRipple_of_full
    intro el hel h0
    have h1 := hfull el hel
    rw [h0] at h1
    exact absurd h1 (by decide)
  refine ⟨hgen, ?_⟩
  intro isTouch es e hlen
  have hinv := rippleRun_inv isTouch (es.map RippleEvent.click) initRippleState
    initRippleState_inv
  have hbusy : busyRipples
      (rippleRun isTouch initRippleState (es.map RippleEvent.click)).ripplePool = 10 := by
    rw [busyRipples_clicks isTouch es initRippleState initRippleState_inv, hlen]
    decide
  have hall : ∀ el ∈ (rippleRun isTouch initRippleState (es.map RippleEvent.click)).ripplePool,
      el.busy = "1" := by
    have hc := hbusy
    rw [← hinv.1] at hc
    unfold busyRipples at hc
    rw [List.countP_eq_length] at hc
    intro el hel
    simpa using hc el hel
  have hsame : rippleRun isTouch initRippleState ((es ++ [e]).map RippleEvent.click) =
      rippleRun isTouch initRippleState (es.map RippleEvent.click) := by
    simp only [rippleRun, List.map_append, List.map_cons, List.map_nil, List.foldl_append,
      List.foldl_cons, List.foldl_nil]
    simp only [rippleRun] at hall
    simp only [rippleStep, hgen isTouch _ _ hall]
  exact ⟨hbusy, hsame, by rw [hsame]; exact hbusy⟩

theorem spawnRipple_dropped_when_full_witness :
    spawnRipple false (List.replicate 10 (playRipple newRipple ⟨3, 4, 80, 900, true⟩))
        ⟨50, 60, 26, 650, false⟩ =
      List.replicate 10 (playRipple newRipple ⟨3, 4, 80, 900, true⟩) ∧
    busyRipples (rippleRun true initRippleState
      (((List.range 11).map (fun n => (⟨none, n, 2 * n⟩ : PointerEvent))).map
        RippleEvent.click)).ripplePool = 10 :=
  ⟨spawnRipple_dropped_when_full.1 false _ _ (by decide),
   (spawnRipple_dropped_when_full.2 true
      ((List.range 10).map (fun n => (⟨none, n, 2 * n⟩ : PointerEvent)))
      ⟨none, 10, 20⟩ (by decide)).2.2⟩

/-! ## Move throttle -/

theorem moveSpawns_append (lastMove : Int) (moves : List (Int × Int × Int)) (now x y : Int) :
    moveSpawns lastMove (moves ++ [(now, x, y)]) =
      moveSpawns lastMove moves ++
        (if now - lastMoveAfter lastMove moves > 90 then
          [(now, { x := x, y := y, size := 26, duration := 650, large := false })]
        else []) := by
  induction moves generalizing lastMove with
  | nil =>
    simp only [List.nil_append, moveSpawns, mousemoveRipple, MOVE_INTERVAL, lastMoveAfter,
      List.foldl_nil]
    split_ifs <;> simp [moveSpawns]
  | cons m rest ih =>
    obtain ⟨t, mx, my⟩ := m
    have hfold : lastMoveAfter lastMove ((t, mx, my) :: rest) =
        lastMoveAfter (mousemoveRipple lastMove t mx my).1 rest := rfl
    rw [hfold]
    by_cases h : t - lastMove > MOVE_INTERVAL
    · have hm : mousemoveRipple lastMove t mx my =
          (t, some { x := mx, y := my, size := 26, duration := 650, large := false }) := by
        simp [mousemoveRipple, h]
      simp only [List.cons_append, moveSpawns, hm]
      exact congrArg _ (ih t)
    · have hm : mousemoveRipple lastMove t mx my = (lastMove, none) := by
        simp [mousemoveRipple, h]
      simp only [List.cons_append, moveSpawns, hm]
      exact ih lastMove

theorem lastMoveAfter_eq (lastMove : Int) (moves : List (Int × Int × Int)) :
    lastMoveAfter lastMove moves =
      (((moveSpawns lastMove moves).getLast?).map (fun c => c.1)).getD lastMove := by
  induction moves using List.reverseRecOn with
  | nil => simp [lastMoveAfter, moveSpawns]
  | append_singleton rest m ih =>
    obtain ⟨t, mx, my⟩ := m
    rw [moveSpawns_append]
    have hfold : lastMoveAfter lastMove (rest ++ [(t, mx, my)]) =
        (mousemoveRipple (lastMoveAfter lastMove rest) t mx my).1 := by
      simp [lastMoveAfter, List.foldl_append]
    rw [hfold]
    simp only [mousemoveRipple, MOVE_INTERVAL]
    split_ifs with h
    · simp
    · simp [ih]

/-- C4 fails as stated. The move listener compares `now - lastMove > 90` with
`lastMove = 0` at the start: for the timestamps 0, 30, 50, 95, 100 of the claim it calls
`spawnRipple` at 95 only, where the claim has 0 and 95; and a move exactly 90 ms after a
spawning move (not closer than the window) does not spawn. -/
theorem move_throttle_counterexample :
    (moveSpawns 0 [(0, 1, 1), (30, 2, 2), (50, 3, 3), (95, 4, 4), (100, 5, 5)]).map
        (fun c => c.1) = [95] ∧
    specMoveSpawnTimes none [0, 30, 50, 95, 100] = [0, 95] ∧
    (moveSpawns 0 [(1700000000000, 1, 1), (1700000000090, 2, 2)]).map (fun c => c.1)
      = [1700000000000] ∧
    specMoveSpawnTimes none [1700000000000, 1700000000090]
      = [1700000000000, 1700000000090] := by
  decide

/-- C4, amended. For every sequence of moves handled from the initial `lastMove = 0`, a
further move at time `now` calls `spawnRipple` exactly when `now - lastMove > 90`, with
size 26, duration 650 and `large = false`, where `lastMove` is the time of the last move
that spawned (0 if none did); no call is made otherwise. So for every base time
`T > 90`, moves at `T`, `T + 30`, `T + 50`, `T + 95`, `T + 100` spawn at `T` and
`T + 95` only. -/
theorem move_throttle (moves : List (Int × Int × Int)) (now x y : Int) :
    moveSpawns 0 (moves ++ [(now, x, y)]) =
      moveSpawns 0 moves ++
        (if now - lastMoveAfter 0 moves > 90 then
          [(now, { x := x, y := y, size := 26, duration := 650, large := false })]
        else []) ∧
    lastMoveAfter 0 moves =
      (((moveSpawns 0 moves).getLast?).map (fun c => c.1)).getD 0 ∧
    (∀ T : Int, T > 90 →
      moveSpawns 0 [(T, x, y), (T + 30, x, y), (T + 50, x, y), (T + 95, x, y), (T + 100, x, y)]
        = [(T, { x := x, y := y, size := 26, duration := 650, large := false }),
           (T + 95, { x := x, y := y, size := 26, duration := 650, large := false })]) := by
  refine ⟨moveSpawns_append 0 moves now x y, lastMoveAfter_eq 0 moves, ?_⟩
  intro T hT
  have e1 : mousemoveRipple 0 T x y =
      (T, some { x := x, y := y, size := 26, duration := 650, large := false }) := by
    unfold mousemoveRipple MOVE_INTERVAL
    rw [if_pos (by omega)]
  have e2 : mousemoveRipple T (T + 30) x y = (T, none) := by
    unfold mousemoveRipple MOVE_INTERVAL
    rw [if_neg (by omega)]
  have e3 : mousemoveRipple T (T + 50) x y = (T, none) := by
    unfold mousemoveRipple MOVE_INTERVAL
    rw [if_neg (by omega)]
  have e4 : mousemoveRipple T (T + 95) x y =
      (T + 95, some { x := x, y := y, size := 26, duration := 650, large := false }) := by
    unfold mousemoveRipple MOVE_INTERVAL
    rw [if_pos (by omega)]
  have e5 : mousemoveRipple (T + 95) (T + 100) x y = (T + 95, none) := by
    unfold mousemoveRipple MOVE_INTERVAL
    rw [if_neg (by omega)]
  simp only [moveSpawns, e1, e2, e3, e4, e5]

theorem move_throttle_witness :
    moveSpawns 0 [(1000, 7, 8), (1030, 7, 8), (1050, 7, 8), (1095, 7, 8), (1100, 7, 8)]
      = [(1000, { x := 7, y := 8, size := 26, duration := 650, large := false }),
         (1095, { x := 7, y := 8, size := 26, duration := 650, large := false })] :=
  (move_throttle [] 0 7 8).2.2 1000 (by decide)

/-! ## Cursor smoothing -/

/-- C5 fails as stated. When the current position already equals the target (as it does
right after initialisation), a frame leaves the distance at 0: it is not strictly
smaller. -/
theorem animateCursor_counterexample :
    ¬ (|(animateCursor
          { targetX := 640, targetY := 360, currX := 640, currY := 360, cursorScale := 1,
            haloTransform := none, cursorTransform := none }).currX - 640| <
        |(640 : ℚ) - 640|) := by
  norm_num [animateCursor]

/-- C5, amended. Over the rationals, one `animateCursor` frame leaves the target
unchanged and sets `curr + (target - curr) * 0.18` on each axis; the new offset from the
target is 0.82 times the old one, so the distance is strictly smaller whenever the
current position differs from the target, stays 0 when it is at the target, and the
position never passes to the other side of the target. -/
theorem animateCursor_contracts (st : CursorState) :
    (animateCursor st).targetX = st.targetX ∧ (animateCursor st).targetY = st.targetY ∧
    (animateCursor st).currX = st.currX + (st.targetX - st.currX) * 0.18 ∧
    (animateCursor st).currY = st.currY + (st.targetY - st.currY) * 0.18 ∧
    (animateCursor st).currX - st.targetX = 0.82 * (st.currX - st.targetX) ∧
    (animateCursor st).currY - st.targetY = 0.82 * (st.currY - st.targetY) ∧
    (st.currX ≠ st.targetX →
      |(animateCursor st).currX - st.targetX| < |st.currX - st.targetX|) ∧
    (st.currY ≠ st.targetY →
      |(animateCursor st).currY - st.targetY| < |st.currY - st.targetY|) ∧
    (st.currX = st.targetX → (animateCursor st).currX = st.targetX) ∧
    (st.currY = st.targetY → (animateCursor st).currY = st.targetY) ∧
    (st.currX ≤ st.targetX → (animateCursor st).currX ≤ st.targetX) ∧
    (st.targetX ≤ st.currX → st.targetX ≤ (animateCursor st).currX) ∧
    (st.currY ≤ st.targetY → (animateCursor st).currY ≤ st.targetY) ∧
    (st.targetY ≤ st.currY → st.targetY ≤ (animateCursor st).currY) := by
  have hx : (animateCursor st).currX - st.targetX = 0.82 * (st.currX - st.targetX) := by
    simp only [animateCursor]; ring
  have hy : (animateCursor st).currY - st.targetY = 0.82 * (st.currY - st.targetY) := by
    simp only [animateCursor]; ring
  have hcontr : ∀ d : ℚ, d ≠ 0 → |0.82 * d| < |d| := by
    intro d hd
    rw [abs_mul]
    have hpos : 0 < |d| := abs_pos.mpr hd
    have h82 : |(0.82 : ℚ)| = 0.82 := abs_of_pos (by norm_num)
    rw [h82]
    have : (0.82 : ℚ) * |d| = |d| - 0.18 * |d| := by ring
    rw [this]
    have : 0 < (0.18 : ℚ) * |d| := mul_pos (by norm_num) hpos
    linarith
  refine ⟨rfl, rfl, rfl, rfl, hx, hy, ?_, ?_, ?_, ?_, ?_, ?_, ?_, ?_⟩
  · intro hne
    rw [hx]
    exact hcontr _ (sub_ne_zero.mpr hne)
  · intro hne
    rw [hy]
    exact hcontr _ (sub_ne_zero.mpr hne)
  · intro heq
    have := hx
    rw [heq] at this
    simp only [sub_self, mul_zero] at this
    linarith
  · intro heq
    have := hy
    rw [heq] at this
    simp only [sub_self, mul_zero] at this
    linarith
  · intro hle
    have h0 : st.currX - st.targetX ≤ 0 := by linarith
    have : (0.82 : ℚ) * (st.currX - st.targetX) ≤ 0 :=
      mul_nonpos_of_nonneg_of_nonpos (by norm_num) h0
    linarith
  · intro hle
    have h0 : 0 ≤ st.currX - st.targetX := by linarith
    have : 0 ≤ (0.82 : ℚ) * (st.currX - st.targetX) := mul_nonneg (by norm_num) h0
    linarith
  · intro hle
    have h0 : st.currY - st.targetY ≤ 0 := by linarith
    have : (0.82 : ℚ) * (st.currY - st.targetY) ≤ 0 :=
      mul_nonpos_of_nonneg_of_nonpos (by norm_num) h0
    linarith
  · intro hle
    have h0 : 0 ≤ st.currY - st.targetY := by linarith
    have : 0 ≤ (0.82 : ℚ) * (st.currY - st.targetY) := mul_nonneg (by norm_num) h0
    linarith

theorem animateCursor_contracts_witness :
    |(animateCursor
        { targetX := 100, targetY := 50, currX := 0, currY := 50, cursorScale := 1,
          haloTransform := none, cursorTransform := none }).currX - 100| < |(0 : ℚ) - 100| ∧
    (animateCursor
        { targetX := 100, targetY := 50, currX := 0, currY := 50, cursorScale := 1,
          haloTransform := none, cursorTransform := none }).currY = 50 :=
  ⟨(animateCursor_contracts
      { targetX := 100, targetY := 50, currX := 0, currY := 50, cursorScale := 1,
        haloTransform := none, cursorTransform := none }).2.2.2.2.2.2.1 (by norm_num),
   (animateCursor_contracts
      { targetX := 100, targetY := 50, currX := 0, currY := 50, cursorScale := 1,
        haloTransform := none, cursorTransform := none }).2.2.2.2.2.2.2.2.2.1 rfl⟩

/-! ## Release round trip and device gating -/

theorem spawnRipple_eq_modify (isTouch : Bool) (pool : List RippleSlot) (a : SpawnArgs)
    (i : Nat) (hgate : (isTouch && !a.large) = false)
    (htake : (getFreeRipple pool).1 = some i) :
    spawnRipple isTouch pool a = pool.modify (fun el => playRipple el a) i := by
  simp only [getFreeRipple] at htake
  simp [spawnRipple, getFreeRipple, hgate, htake]

theorem playRipple_after_release (el : RippleSlot) (a1 a2 : SpawnArgs) (hok : SlotOK el)
    (hfree : el.busy = "0") :
    playRipple (animationendSlot (playRipple el a1)) a2 =
      { busy := "1", left := px a2.x, top := px a2.y, width := px a2.size,
        height := px a2.size, animationDuration := toString a2.duration ++ "ms",
        classes := if a2.large then ["ripple", "ripple--large", "ripple--play"]
                   else ["ripple", "ripple--play"] } := by
  unfold SlotOK at hok
  rcases hok with ⟨_, hc | hc⟩ | ⟨hb, _⟩
  · cases h1 : a1.large <;> cases h2 : a2.large <;>
      simp [playRipple, animationendSlot, classListAdd, classListRemove, hc, h1, h2,
        List.filter]
  · cases h1 : a1.large <;> cases h2 : a2.large <;>
      simp [playRipple, animationendSlot, classListAdd, classListRemove, hc, h1, h2,
        List.filter]
  · rw [hfree] at hb
    exact absurd hb (by decide)

/-- C6. In every reachable pool, on a device where neither spawn is gated off: when
`spawnRipple(x1, y1, s1, d1, l1)` takes element `i` and its `animationend` listener runs,
element `i` is free, not playing, and its `left`, `top`, `width` and `height` are empty;
the following `spawnRipple(x2, y2, s2, d2, l2)` takes the same element and leaves it
busy with `left = x2 px`, `top = y2 px`, `width = height = s2 px`, duration `d2 ms`,
playing, and `ripple--large` present iff `l2`: a value in which the first spawn does not
appear. -/
theorem release_round_trip (isTouch : Bool) (evs : List RippleEvent) (pool : List RippleSlot)
    (i : Nat) (a1 a2 : SpawnArgs)
    (hreach : pool = (rippleRun isTouch initRippleState evs).ripplePool)
    (hg1 : (isTouch && !a1.large) = false) (hg2 : (isTouch && !a2.large) = false)
    (htake : (getFreeRipple pool).1 = some i) :
    (∃ el, (animationend (spawnRipple isTouch pool a1) i)[i]? = some el ∧
      el.busy = "0" ∧ "ripple--play" ∉ el.classes ∧
      el.left = "" ∧ el.top = "" ∧ el.width = "" ∧ el.height = "") ∧
    (getFreeRipple (animationend (spawnRipple isTouch pool a1) i)).1 = some i ∧
    (spawnRipple isTouch (animationend (spawnRipple isTouch pool a1) i) a2)[i]? =
      some
        { busy := "1", left := px a2.x, top := px a2.y, width := px a2.size,
          height := px a2.size, animationDuration := toString a2.duration ++ "ms",
          classes := if a2.large then ["ripple", "ripple--large", "ripple--play"]
                     else ["ripple", "ripple--play"] } := by
  have hinv := rippleRun_inv isTouch evs initRippleState initRippleState_inv
  rw [← hreach] at hinv
  have hscan := htake
  simp only [getFreeRipple] at hscan
  obtain ⟨⟨el0, hget0, hfree0⟩, hbefore⟩ := (getFreeRippleFrom_eq_some pool i).mp hscan
  have hok0 : SlotOK el0 := hinv.2 el0 (List.mem_iff_getElem?.mpr ⟨i, hget0⟩)
  rw [spawnRipple_eq_modify isTouch pool a1 i hg1 htake]
  have hget2 : (animationend (pool.modify (fun el => playRipple el a1) i) i)[i]? =
      some (animationendSlot (playRipple el0 a1)) := by
    simp [animationend, hget0]
  have htake2 : (getFreeRipple (animationend (pool.modify (fun el => playRipple el a1) i) i)).1
      = some i := by
    simp only [getFreeRipple]
    rw [getFreeRippleFrom_eq_some]
    refine ⟨⟨_, hget2, rfl⟩, ?_⟩
    intro j hj el hjel
    have hne : i ≠ j := by omega
    simp only [animationend, List.getElem?_modify_ne _ _ hne] at hjel
    exact hbefore j hj el hjel
  refine ⟨⟨_, hget2, rfl, ?_, rfl, rfl, rfl, rfl⟩, htake2, ?_⟩
  · simp [animationendSlot, classListRemove]
  · rw [spawnRipple_eq_modify isTouch _ a2 i hg2 htake2]
    rw [List.getElem?_modify_eq, hget2]
    simp only [Option.map_eq_map, Option.map_some']
    rw [playRipple_after_release el0 a1 a2 hok0 hfree0]

theorem release_round_trip_witness :
    (spawnRipple false
        (animationend (spawnRipple false initPool ⟨10, 20, 80, 900, true⟩) 0)
        ⟨33, 44, 26, 650, false⟩)[0]? =
      some
        { busy := "1", left := "33px", top := "44px", width := "26px", height := "26px",
          animationDuration := "650ms", classes := ["ripple", "ripple--play"] } :=
  (release_round_trip false [] initPool 0 ⟨10, 20, 80, 900, true⟩ ⟨33, 44, 26, 650, false⟩
    rfl rfl rfl rfl).2.2

/-- C7. On either device type a `click` or `touchstart` calls
`spawnRipple(x, y, 80, 900, true)` with the coordinates of the event, and when the pool
has a free element `getFreeRipple` finds one, the first free one is marked busy (written
from those arguments) and every other element is left as it was. On a touch device a move-triggered
`spawnRipple(x, y, 26, 650, false)` leaves every pool unchanged, and so does the whole
`mousemove` listener. -/
theorem device_gating :
    (∀ e : PointerEvent,
      (clickRipple e).size = 80 ∧ (clickRipple e).duration = 900 ∧
      (clickRipple e).large = true ∧
      (e.touches0 = none → (clickRipple e).x = e.clientX ∧ (clickRipple e).y = e.clientY) ∧
      (∀ t, e.touches0 = some t → (clickRipple e).x = t.1 ∧ (clickRipple e).y = t.2)) ∧
    (∀ (isTouch : Bool) (st : RippleState) (e : PointerEvent),
      (rippleStep isTouch st (.click e)).ripplePool =
          spawnRipple isTouch st.ripplePool (clickRipple e) ∧
      (rippleStep isTouch st (.touchstart e)).ripplePool =
          spawnRipple isTouch st.ripplePool (clickRipple e)) ∧
    (∀ pool : List RippleSlot, (∃ el ∈ pool, el.busy = "0") →
      ∃ i, (getFreeRipple pool).1 = some i) ∧
    (∀ (isTouch : Bool) (pool : List RippleSlot) (e : PointerEvent) (i : Nat),
      (getFreeRipple pool).1 = some i →
      ∃ el, pool[i]? = some el ∧ el.busy = "0" ∧
        (∀ j, j < i → ∀ el1, pool[j]? = some el1 → el1.busy ≠ "0") ∧
        (spawnRipple isTouch pool (clickRipple e))[i]? = some (playRipple el (clickRipple e)) ∧
        (playRipple el (clickRipple e)).busy = "1" ∧
        ∀ j, j ≠ i → (spawnRipple isTouch pool (clickRipple e))[j]? = pool[j]?) ∧
    (∀ (pool : List RippleSlot) (x y : Int),
      spawnRipple true pool { x := x, y := y, size := 26, duration := 650, large := false }
        = pool) ∧
    (∀ (st : RippleState) (now x y : Int),
      (rippleStep true st (.mousemove now x y)).ripplePool = st.ripplePool) := by
  refine ⟨?_, ?_, ?_, ?_, ?_, ?_⟩
  · intro e
    refine ⟨rfl, rfl, rfl, ?_, ?_⟩
    · intro h
      simp [clickRipple, h]
    · intro t h
      simp [clickRipple, h]
  · intro isTouch st e
    exact ⟨rfl, rfl⟩
  · rintro pool ⟨el, hel, hfree⟩
    cases hscan : getFreeRippleFrom pool 0 with
    | none => exact absurd hfree ((getFreeRippleFrom_eq_none pool).mp hscan el hel)
    | some i => exact ⟨i, hscan⟩
  · intro isTouch pool e i htake
    have hscan := htake
    simp only [getFreeRipple] at hscan
    obtain ⟨⟨el0, hget0, hfree0⟩, hbefore⟩ := (getFreeRippleFrom_eq_some pool i).mp hscan
    have hgate : (isTouch && !(clickRipple e).large) = false := by simp [clickRipple]
    rw [spawnRipple_eq_modify isTouch pool (clickRipple e) i hgate htake]
    refine ⟨el0, hget0, hfree0, hbefore, ?_, rfl, ?_⟩
    · simp [hget0]
    · intro j hj
      exact List.getElem?_modify_ne _ _ (Ne.symm hj)
  · intro pool x y
    exact spawnRipple_gated pool _ true rfl
  · intro st now x y
    simp only [rippleStep, mousemoveRipple]
    split_ifs
    · exact spawnRipple_gated st.ripplePool
        { x := x, y := y, size := 26, duration := 650, large := false } true rfl
    · rfl

theorem device_gating_witness :
    (∃ el, initPool[0]? = some el ∧ el.busy = "0" ∧
      (∀ j, j < 0 → ∀ el1, initPool[j]? = some el1 → el1.busy ≠ "0") ∧
      (spawnRipple true initPool (clickRipple ⟨some (5, 6), 0, 0⟩))[0]? =
        some (playRipple el (clickRipple ⟨some (5, 6), 0, 0⟩)) ∧
      (playRipple el (clickRipple ⟨some (5, 6), 0, 0⟩)).busy = "1" ∧
      ∀ j, j ≠ 0 →
        (spawnRipple true initPool (clickRipple ⟨some (5, 6), 0, 0⟩))[j]? = initPool[j]?) ∧
    (clickRipple ⟨none, 3, 4⟩).x = 3 ∧ (clickRipple ⟨none, 3, 4⟩).y = 4 :=
  ⟨device_gating.2.2.2.1 true initPool ⟨some (5, 6), 0, 0⟩ 0 (by decide),
   (device_gating.1 ⟨none, 3, 4⟩).2.2.2.1 rfl⟩

/-! ## Initialisation -/

theorem createRipplePool_ok (env : Env) (hbody : env.hasBody = true) (n : Nat)
    (pool : List RippleSlot) : createRipplePool env n pool = .ok (pushRipples n pool) := by
  induction n generalizing pool with
  | zero => rfl
  | succ k ih =>
    simp only [createRipplePool, appendToBody, hbody, if_true, pushRipples]
    exact ih (pool ++ [newRipple])

theorem initCursorAndRipples_no_body (env : Env) (hbody : env.hasBody = false) :
    ∀ st, initCursorAndRipples env ≠ .ok st := by
  intro st
  unfold initCursorAndRipples
  cases hd : detectTouch env with
  | error e => simp [bind, Except.bind]
  | ok b => simp [bind, Except.bind, appendToBody, hbody]

/-- C8 fails as stated. The function has no `try`: with `window.matchMedia` undefined
(and no other touch signal) the touch detection throws a `TypeError`, and with
`document.body` missing the first `appendChild` throws; both leave the function. -/
theorem initCursorAndRipples_counterexample :
    initCursorAndRipples
        { ontouchstart := false, maxTouchPoints := some 0, matchMedia := none,
          hasBody := true, innerWidth := 1280, innerHeight := 720 } =
      .error (.typeError "window.matchMedia is not a function") ∧
    initCursorAndRipples
        { ontouchstart := false, maxTouchPoints := some 0, matchMedia := some false,
          hasBody := false, innerWidth := 1280, innerHeight := 720 } =
      .error (.typeError "Cannot read properties of null (reading appendChild)") := by
  constructor <;> rfl

/-- C8, amended. `initCursorAndRipples` completes without throwing exactly when
`document.body` exists and the touch detection does not call an undefined
`window.matchMedia`, that is when `ontouchstart` is in `window`, or
`navigator.maxTouchPoints` is positive, or `matchMedia` is available (an undefined
`maxTouchPoints` alone is harmless). It then leaves the pool of 10 free elements with
`lastMove = 0` and the cursor at the window centre. -/
theorem initCursorAndRipples_ok_iff (env : Env) :
    ((∃ st, initCursorAndRipples env = .ok st) ↔
      env.hasBody = true ∧
        (env.ontouchstart = true ∨ (∃ n, env.maxTouchPoints = some n ∧ 0 < n) ∨
          env.matchMedia ≠ none)) ∧
    (∀ st, initCursorAndRipples env = .ok st →
      st.ripple = initRippleState ∧ st.cursor.currX = env.innerWidth / 2 ∧
      st.cursor.currY = env.innerHeight / 2 ∧ st.cursor.targetX = st.cursor.currX ∧
      st.cursor.targetY = st.cursor.currY ∧ st.cursorVisible = false) := by
  cases hbody : env.hasBody with
  | false =>
    have hno := initCursorAndRipples_no_body env hbody
    constructor
    · constructor
      · rintro ⟨st, hst⟩
        exact absurd hst (hno st)
      · rintro ⟨h, _⟩
        exact absurd h (by simp)
    · intro st hst
      exact absurd hst (hno st)
  | true =>
    have hpool := createRipplePool_ok env hbody POOL_SIZE []
    cases hd : detectTouch env with
    | error e =>
      have hfail : ∀ st, initCursorAndRipples env ≠ .ok st := by
        intro st
        unfold initCursorAndRipples
        simp [hd, bind, Except.bind]
      have hcond : ¬ (env.ontouchstart = true ∨ (∃ n, env.maxTouchPoints = some n ∧ 0 < n) ∨
          env.matchMedia ≠ none) := by
        unfold detectTouch at hd
        rintro (h | ⟨n, hn, hpos⟩ | h)
        · simp [h] at hd
        · simp [hn, hpos] at hd
        · split at hd
          · simp at hd
          · split at hd
            · simp at hd
            · cases hm : env.matchMedia with
              | none => exact h hm
              | some m => simp [hm] at hd
      constructor
      · constructor
        · rintro ⟨st, hst⟩
          exact absurd hst (hfail st)
        · rintro ⟨_, h⟩
          exact absurd h hcond
      · intro st hst
        exact absurd hst (hfail st)
    | ok b =>
      have hcond : env.ontouchstart = true ∨ (∃ n, env.maxTouchPoints = some n ∧ 0 < n) ∨
          env.matchMedia ≠ none := by
        unfold detectTouch at hd
        by_cases h1 : env.ontouchstart = true
        · exact Or.inl h1
        · cases h2 : env.maxTouchPoints with
          | some n =>
            by_cases hpos : 0 < n
            · exact Or.inr (Or.inl ⟨n, rfl, hpos⟩)
            · cases hm : env.matchMedia with
              | none => simp [h1, h2, hpos, hm] at hd
              | some m => exact Or.inr (Or.inr (by simp))
          | none =>
            cases hm : env.matchMedia with
            | none => simp [h1, h2, hm] at hd
            | some m => exact Or.inr (Or.inr (by simp))
      have hrun : initCursorAndRipples env =
          (if b then
            .ok (hideCursor
              { isTouch := b, cursorClasses := ["cursor-follower", "cursor--hidden"],
                haloClasses := ["cursor-halo", "cursor--hidden"], cursorVisible := false,
                cursor :=
                  { targetX := env.innerWidth / 2, targetY := env.innerHeight / 2,
                    currX := env.innerWidth / 2, currY := env.innerHeight / 2,
                    cursorScale := 1, haloTransform := none, cursorTransform := none },
                ripple := { ripplePool := initPool, lastMove := 0 } })
          else
            .ok
              { isTouch := b, cursorClasses := ["cursor-follower", "cursor--hidden"],
                haloClasses := ["cursor-halo", "cursor--hidden"], cursorVisible := false,
                cursor :=
                  { targetX := env.innerWidth / 2, targetY := env.innerHeight / 2,
                    currX := env.innerWidth / 2, currY := env.innerHeight / 2,
                    cursorScale := 1, haloTransform := none, cursorTransform := none },
                ripple := { ripplePool := initPool, lastMove := 0 } }) := by
        unfold initCursorAndRipples
        simp only [hd, bind, Except.bind, appendToBody, hbody, if_true, hpool]
        rfl
      constructor
      · constructor
        · intro _
          exact ⟨rfl, hcond⟩
        · intro _
          rw [hrun]
          cases b
          · exact ⟨_, rfl⟩
          · exact ⟨_, rfl⟩
      · intro st hst
        rw [hrun] at hst
        cases b
        · simp only [Bool.false_eq_true, if_false, Except.ok.injEq] at hst
          subst hst
          exact ⟨rfl, rfl, rfl, rfl, rfl, rfl⟩
        · simp only [if_true, Except.ok.injEq] at hst
          subst hst
          exact ⟨rfl, rfl, rfl, rfl, rfl, rfl⟩

theorem initCursorAndRipples_ok_iff_witness :
    ∃ st,
      initCursorAndRipples
        { ontouchstart := false, maxTouchPoints := none, matchMedia := some false,
          hasBody := true, innerWidth := 1280, innerHeight := 720 } = .ok st :=
  (initCursorAndRipples_ok_iff
    { ontouchstart := false, maxTouchPoints := none, matchMedia := some false,
      hasBody := true, innerWidth := 1280, innerHeight := 720 }).1.mpr
    ⟨rfl, Or.inr (Or.inr (by simp))⟩

/-! ## Contact form -/

/-- C9 on the code: a submission with an empty `name`, a valid `email` and a non-empty
`message` gets the success notification and the form reset, not the error
`Please fill in all fields`; the listener reads `name` and never tests it. -/
theorem submitHandler_empty_name :
    submitHandler (some "") (some "a@b.co") (some "hi") =
      [.preventDefault,
       .showNotification "Thank you for your message! I\x27ll get back to you soon." "success",
       .reset] ∧
    submitHandler none (some "a@b.co") (some "hi") =
      [.preventDefault,
       .showNotification "Thank you for your message! I\x27ll get back to you soon." "success",
       .reset] := by
  decide

/-! ## Konami detector -/

theorem keydown_eq (st : KonamiState) (code : String) :
    keydown st code =
      if shiftedCodes st.konamiCode code = konamiSequence then
        activateEasterEgg { st with konamiCode := shiftedCodes st.konamiCode code }
      else { st with konamiCode := shiftedCodes st.konamiCode code } := rfl

theorem activates_iff (st : KonamiState) (code : String) :
    activates st code = true ↔ shiftedCodes st.konamiCode code = konamiSequence := by
  unfold activates
  rw [keydown_eq]
  split_ifs with h <;> simp [activateEasterEgg, h]

theorem konamiCode_keydown (st : KonamiState) (code : String) :
    (keydown st code).konamiCode =
      if shiftedCodes st.konamiCode code = konamiSequence then []
      else shiftedCodes st.konamiCode code := by
  rw [keydown_eq]
  split_ifs <;> rfl

theorem length_konamiSequence : konamiSequence.length = 10 := rfl

theorem length_shiftedCodes (buf : List String) (code : String) (hlen : buf.length ≤ 10) :
    (shiftedCodes buf code).length ≤ 10 := by
  unfold shiftedCodes
  split_ifs with h
  · simp only [List.length_tail, List.length_append, List.length_singleton, List.length_cons,
      List.length_nil]
    omega
  · simp only [length_konamiSequence] at h
    omega

theorem lastCodes_eq_iff (codes : List String) :
    lastCodes 10 codes = konamiSequence ↔ konamiSequence <:+ codes := by
  rw [List.suffix_iff_eq_drop, length_konamiSequence]
  unfold lastCodes
  exact eq_comm

theorem suffix_shiftedCodes (buf : List String) (code : String) (w : List String)
    (hw : w ≠ []) :
    konamiSequence <:+ (buf ++ [code]) ++ w ↔ konamiSequence <:+ shiftedCodes buf code ++ w := by
  unfold shiftedCodes
  split_ifs with h
  · cases hp : buf ++ [code] with
    | nil => simp at hp
    | cons x t =>
      rw [hp] at h
      simp only [List.tail_cons, List.cons_append]
      rw [List.suffix_cons_iff]
      constructor
      · rintro (heq | hs)
        · exfalso
          have hl := congrArg List.length heq
          have hwl : 0 < w.length := List.length_pos.mpr hw
          simp only [length_konamiSequence, List.length_cons, List.length_append] at hl h
          omega
        · exact hs
      · intro hs
        exact Or.inr hs
  · exact Iff.rfl

theorem shiftedCodes_eq_iff (buf : List String) (code : String) (hlen : buf.length ≤ 10) :
    shiftedCodes buf code = konamiSequence ↔ konamiSequence <:+ buf ++ [code] := by
  unfold shiftedCodes
  split_ifs with h
  · cases hp : buf ++ [code] with
    | nil => simp at hp
    | cons x t =>
      have hl := congrArg List.length hp
      simp only [List.length_append, List.length_singleton, List.length_cons, List.length_nil] at hl
      rw [hp] at h
      simp only [length_konamiSequence, List.length_cons] at h
      simp only [List.tail_cons]
      rw [List.suffix_cons_iff]
      constructor
      · intro heq
        exact Or.inr (heq ▸ List.suffix_refl _)
      · rintro (heq | hs)
        · exfalso
          have hl2 := congrArg List.length heq
          simp only [length_konamiSequence, List.length_cons] at hl2
          omega
        · exact (hs.eq_of_length (by rw [length_konamiSequence]; omega)).symm
  · simp only [length_konamiSequence] at h
    constructor
    · intro heq
      exact heq ▸ List.suffix_refl _
    · intro hs
      exact (hs.eq_of_length_le (by rw [length_konamiSequence]; omega)).symm

/-- No proper non-empty suffix of the Konami sequence is also a prefix of it: a match
cannot overlap the end of an earlier match. -/
theorem konamiSequence_no_border (n : Nat) (h1 : 1 ≤ n) (h9 : n ≤ 9) :
    konamiSequence.take n ≠ konamiSequence.drop (10 - n) := by
  interval_cases n <;> decide

theorem suffix_after_match (w : List String) (hw : w ≠ []) :
    konamiSequence <:+ konamiSequence ++ w ↔ konamiSequence <:+ w := by
  constructor
  · intro hs
    by_cases hlen : 10 ≤ w.length
    · exact List.suffix_of_suffix_length_le hs (List.suffix_append _ _)
        (by rw [length_konamiSequence]; exact hlen)
    · exfalso
      have hwl : 0 < w.length := List.length_pos.mpr hw
      have hws : w <:+ konamiSequence :=
        List.suffix_of_suffix_length_le (List.suffix_append _ _) hs
          (by rw [length_konamiSequence]; omega)
      obtain ⟨u, hu⟩ := hws
      obtain ⟨v, hv⟩ := hs
      have hul : u.length + w.length = 10 := by
        have := congrArg List.length hu
        simpa [length_konamiSequence] using this
      have hvu : v ++ u = konamiSequence := by
        rw [← hu, ← List.append_assoc] at hv
        have := List.append_inj' hv rfl
        rw [this.1, hu]
      have hvl : v.length + u.length = 10 := by
        have := congrArg List.length hvu
        simpa [length_konamiSequence] using this
      have htake : konamiSequence.take u.length = u := by
        rw [← hu]
        simp
      have hdrop : konamiSequence.drop (10 - u.length) = u := by
        have hvlen : v.length = 10 - u.length := by omega
        rw [← hvlen, ← hvu]
        simp
      exact konamiSequence_no_border u.length (by omega) (by omega) (htake.trans hdrop.symm)
  · intro hs
    obtain ⟨t, ht⟩ := hs
    exact ⟨konamiSequence ++ t, by rw [List.append_assoc, ht]⟩

theorem keydowns_snoc (codes : List String) (code : String) :
    keydowns (codes ++ [code]) = keydown (keydowns codes) code := by
  simp [keydowns, List.foldl_append]

/-- The buffer holds at most 10 codes and decides every later match exactly as the whole
key history would. -/
theorem keydowns_inv (codes : List String) :
    (keydowns codes).konamiCode.length ≤ 10 ∧
      ∀ w, w ≠ [] →
        (konamiSequence <:+ codes ++ w ↔ konamiSequence <:+ (keydowns codes).konamiCode ++ w) := by
  induction codes using List.reverseRecOn with
  | nil => exact ⟨by decide, fun w _ => Iff.rfl⟩
  | append_singleton rest c ih =>
    obtain ⟨hlen, hsuf⟩ := ih
    rw [keydowns_snoc, konamiCode_keydown]
    have hsl := length_shiftedCodes (keydowns rest).konamiCode c hlen
    constructor
    · split_ifs
      · simp
      · exact hsl
    · intro w hw
      have h1 : konamiSequence <:+ (rest ++ [c]) ++ w ↔
          konamiSequence <:+ ((keydowns rest).konamiCode ++ [c]) ++ w := by
        have := hsuf (c :: w) (by simp)
        simpa [List.append_assoc] using this
      rw [h1, suffix_shiftedCodes _ _ _ hw]
      split_ifs with heq
      · rw [heq, suffix_after_match w hw, List.nil_append]
      · exact Iff.rfl

/-- C10. For every key history handled from the empty buffer and every further
`keydown`: between listeners the buffer holds at most 10 codes; the listener calls
`activateEasterEgg` at that `keydown` if and only if the 10 most recent codes of the
whole history, ending with it, are exactly the Konami sequence; and after an activation
the buffer is empty. -/
theorem konami_detector (codes : List String) (code : String) :
    (keydowns codes).konamiCode.length ≤ 10 ∧
    (keydowns (codes ++ [code])).konamiCode.length ≤ 10 ∧
    (activates (keydowns codes) code = true ↔
      lastCodes 10 (codes ++ [code]) = konamiSequence) ∧
    (activates (keydowns codes) code = true →
      (keydowns (codes ++ [code])).konamiCode = []) := by
  obtain ⟨hlen, hsuf⟩ := keydowns_inv codes
  refine ⟨hlen, (keydowns_inv (codes ++ [code])).1, ?_, ?_⟩
  · rw [activates_iff, shiftedCodes_eq_iff _ _ hlen, lastCodes_eq_iff]
    exact (hsuf [code] (by simp)).symm
  · intro hact
    rw [activates_iff] at hact
    rw [keydowns_snoc, konamiCode_keydown, if_pos hact]

theorem konami_detector_witness :
    (keydowns
      (["KeyX", "ArrowUp", "ArrowUp", "ArrowDown", "ArrowDown", "ArrowLeft", "ArrowRight",
        "ArrowLeft", "ArrowRight", "KeyB"] ++ ["KeyA"])).konamiCode = [] :=
  (konami_detector
      ["KeyX", "ArrowUp", "ArrowUp", "ArrowDown", "ArrowDown", "ArrowLeft", "ArrowRight",
       "ArrowLeft", "ArrowRight", "KeyB"] "KeyA").2.2.2 (by decide)


/-! ## The email test -/

theorem Regex.nullable_of_matches {r : Regex} {cs : List Char} (h : Regex.Matches r cs) :
    cs = [] → r.nullable = true := by
  induction h with
  | eps => intro _; rfl
  | cls p c hp => intro hnil; simp at hnil
  | seq _ _ iha ihb =>
    intro hnil
    obtain ⟨hs, ht⟩ := List.append_eq_nil.mp hnil
    simp [Regex.nullable, iha hs, ihb ht]
  | altLeft _ ih => intro hnil; simp [Regex.nullable, ih hnil]
  | altRight _ ih => intro hnil; simp [Regex.nullable, ih hnil]
  | starNil => intro _; rfl
  | starCons _ _ _ _ => intro _; rfl

theorem Regex.matches_nil_of_nullable (r : Regex) (h : r.nullable = true) :
    Regex.Matches r [] := by
  induction r with
  | fail => simp [Regex.nullable] at h
  | eps => exact .eps
  | cls p => simp [Regex.nullable] at h
  | seq a b iha ihb =>
    simp only [Regex.nullable, Bool.and_eq_true] at h
    exact .seq (iha h.1) (ihb h.2)
  | alt a b iha ihb =>
    simp only [Regex.nullable, Bool.or_eq_true] at h
    rcases h with h | h
    · exact .altLeft (iha h)
    · exact .altRight (ihb h)
  | star a _ => exact .starNil

theorem Regex.matches_cons_of_deriv (r : Regex) (c : Char) (cs : List Char)
    (h : Regex.Matches (r.deriv c) cs) : Regex.Matches r (c :: cs) := by
  induction r generalizing cs with
  | fail => cases h
  | eps => cases h
  | cls p =>
    simp only [Regex.deriv] at h
    split at h
    · cases h
      exact .cls p c (by assumption)
    · cases h
  | seq a b iha ihb =>
    simp only [Regex.deriv] at h
    split at h
    · cases h with
      | altLeft h1 =>
        cases h1 with
        | seq ha hb => exact .seq (iha _ ha) hb
      | altRight h2 =>
        exact .seq (s := []) (Regex.matches_nil_of_nullable a (by assumption)) (ihb _ h2)
    · cases h with
      | seq ha hb => exact .seq (iha _ ha) hb
  | alt a b iha ihb =>
    simp only [Regex.deriv] at h
    cases h with
    | altLeft h1 => exact .altLeft (iha _ h1)
    | altRight h2 => exact .altRight (ihb _ h2)
  | star a iha =>
    simp only [Regex.deriv] at h
    cases h with
    | seq ha hb => exact .starCons (iha _ ha) hb

theorem Regex.matches_deriv_of_cons {r : Regex} {t : List Char} (h : Regex.Matches r t) :
    ∀ (c : Char) (cs : List Char), t = c :: cs → Regex.Matches (r.deriv c) cs := by
  induction h with
  | eps => intro c cs ht; simp at ht
  | cls p x hp =>
    intro c cs ht
    simp only [List.cons.injEq] at ht
    obtain ⟨hx, hcs⟩ := ht
    subst hx
    subst hcs
    simp only [Regex.deriv, hp, if_true]
    exact .eps
  | @seq a b s1 s2 ha hb iha ihb =>
    intro c cs ht
    cases s1 with
    | nil =>
      simp only [List.nil_append] at ht
      have hnull := Regex.nullable_of_matches ha rfl
      simp only [Regex.deriv, hnull, if_true]
      exact .altRight (ihb c cs ht)
    | cons x s1 =>
      simp only [List.cons_append, List.cons.injEq] at ht
      obtain ⟨hx, hcs⟩ := ht
      subst hx
      subst hcs
      have h1 := iha x s1 rfl
      simp only [Regex.deriv]
      split
      · exact .altLeft (.seq h1 hb)
      · exact .seq h1 hb
  | altLeft _ ih =>
    intro c cs ht
    exact .altLeft (ih c cs ht)
  | altRight _ ih =>
    intro c cs ht
    exact .altRight (ih c cs ht)
  | starNil => intro c cs ht; simp at ht
  | @starCons a s1 s2 ha hb iha ihb =>
    intro c cs ht
    cases s1 with
    | nil =>
      simp only [List.nil_append] at ht
      exact ihb c cs ht
    | cons x s1 =>
      simp only [List.cons_append, List.cons.injEq] at ht
      obtain ⟨hx, hcs⟩ := ht
      subst hx
      subst hcs
      simp only [Regex.deriv]
      exact .seq (iha x s1 rfl) hb

/-- The derivative matcher decides the language of the expression. -/
theorem Regex.matchesChars_iff (r : Regex) (cs : List Char) :
    r.matchesChars cs = true ↔ Regex.Matches r cs := by
  induction cs generalizing r with
  | nil =>
    simp only [Regex.matchesChars]
    exact ⟨Regex.matches_nil_of_nullable r, fun h => Regex.nullable_of_matches h rfl⟩
  | cons c cs ih =>
    simp only [Regex.matchesChars]
    rw [ih]
    exact ⟨Regex.matches_cons_of_deriv r c cs, fun h => Regex.matches_deriv_of_cons h c cs rfl⟩

theorem Regex.matches_seq_iff (a b : Regex) (cs : List Char) :
    Regex.Matches (.seq a b) cs ↔
      ∃ s t, cs = s ++ t ∧ Regex.Matches a s ∧ Regex.Matches b t := by
  constructor
  · intro h
    cases h with
    | seq ha hb => exact ⟨_, _, rfl, ha, hb⟩
  · rintro ⟨s, t, rfl, ha, hb⟩
    exact .seq ha hb

theorem Regex.matches_cls_iff (p : Char → Bool) (cs : List Char) :
    Regex.Matches (.cls p) cs ↔ ∃ c, cs = [c] ∧ p c = true := by
  constructor
  · intro h
    cases h with
    | cls _ c hp => exact ⟨c, rfl, hp⟩
  · rintro ⟨c, rfl, hp⟩
    exact .cls p c hp

theorem Regex.forall_of_matches_star_cls {r : Regex} {cs : List Char}
    (h : Regex.Matches r cs) :
    ∀ p : Char → Bool, r = .star (.cls p) → ∀ c ∈ cs, p c = true := by
  induction h with
  | eps => intro p hr; cases hr
  | cls q x _ => intro p hr; cases hr
  | seq _ _ _ _ => intro p hr; cases hr
  | altLeft _ _ => intro p hr; cases hr
  | altRight _ _ => intro p hr; cases hr
  | starNil => intro p _ c hc; simp at hc
  | @starCons a s t ha _ _ ihb =>
    intro p hr c hc
    have ha2 : a = .cls p := by injection hr
    subst ha2
    rcases List.mem_append.mp hc with hs | ht
    · obtain ⟨x, hx, hp⟩ := (Regex.matches_cls_iff p s).mp ha
      subst hx
      simp only [List.mem_singleton] at hs
      rw [hs]
      exact hp
    · exact ihb p hr c ht

theorem Regex.matches_star_cls_iff (p : Char → Bool) (cs : List Char) :
    Regex.Matches (.star (.cls p)) cs ↔ ∀ c ∈ cs, p c = true := by
  constructor
  · intro h
    exact Regex.forall_of_matches_star_cls h p rfl
  · intro hall
    induction cs with
    | nil => exact .starNil
    | cons x xs ih =>
      have hx : p x = true := hall x (List.mem_cons_self x xs)
      have hxs := ih (fun c hc => hall c (List.mem_cons_of_mem x hc))
      exact .starCons (s := [x]) (.cls p x hx) hxs

theorem Regex.matches_plus_cls_iff (p : Char → Bool) (cs : List Char) :
    Regex.Matches (Regex.plus (.cls p)) cs ↔ cs ≠ [] ∧ ∀ c ∈ cs, p c = true := by
  unfold Regex.plus
  rw [Regex.matches_seq_iff]
  constructor
  · rintro ⟨s, t, rfl, hs, ht⟩
    obtain ⟨x, rfl, hp⟩ := (Regex.matches_cls_iff p s).mp hs
    refine ⟨by simp, ?_⟩
    intro c hc
    rcases List.mem_append.mp hc with h1 | h2
    · simp only [List.mem_singleton] at h1
      rw [h1]
      exact hp
    · exact (Regex.matches_star_cls_iff p t).mp ht c h2
  · rintro ⟨hne, hall⟩
    cases cs with
    | nil => exact absurd rfl hne
    | cons x xs =>
      refine ⟨[x], xs, rfl, .cls p x (hall x (List.mem_cons_self x xs)), ?_⟩
      exact (Regex.matches_star_cls_iff p xs).mpr (fun c hc => hall c (List.mem_cons_of_mem x hc))

/-- The language of the email literal, as a decomposition of the text. -/
theorem matches_emailRegex_iff (cs : List Char) :
    Regex.Matches emailRegex cs ↔
      ∃ a b c : List Char, cs = a ++ '@' :: (b ++ '.' :: c) ∧
        a ≠ [] ∧ b ≠ [] ∧ c ≠ [] ∧
        (∀ x ∈ a, notSpaceAt x = true) ∧ (∀ x ∈ b, notSpaceAt x = true) ∧
        (∀ x ∈ c, notSpaceAt x = true) := by
  unfold emailRegex
  simp only [Regex.matches_seq_iff, Regex.matches_plus_cls_iff, Regex.matches_cls_iff]
  constructor
  · rintro ⟨a, r1, rfl, ⟨ha, hap⟩, s1, r2, rfl, ⟨x, rfl, hx⟩, b, r3, rfl, ⟨hb, hbp⟩,
      s2, c, rfl, ⟨y, rfl, hy⟩, hc, hcp⟩
    have hx2 : x = '@' := by simpa using hx
    have hy2 : y = '.' := by simpa using hy
    subst hx2
    subst hy2
    exact ⟨a, b, c, by simp, ha, hb, hc, hap, hbp, hcp⟩
  · rintro ⟨a, b, c, rfl, ha, hb, hc, hap, hbp, hcp⟩
    exact ⟨a, '@' :: (b ++ '.' :: c), rfl, ⟨ha, hap⟩, ['@'], b ++ '.' :: c, rfl,
      ⟨'@', rfl, by simp⟩, b, '.' :: c, rfl, ⟨hb, hbp⟩, ['.'], c, rfl, ⟨'.', rfl, by simp⟩,
      hc, hcp⟩


theorem notSpaceAt_iff (x : Char) : notSpaceAt x = true ↔ isJsSpace x = false ∧ x ≠ '@' := by
  simp [notSpaceAt]

theorem beforeAt_afterAt_split (a rest : List Char) (ha : '@' ∉ a) :
    beforeAt (a ++ '@' :: rest) = a ∧ afterAt (a ++ '@' :: rest) = rest := by
  induction a with
  | nil => simp [beforeAt, afterAt, List.takeWhile, List.dropWhile]
  | cons x xs ih =>
    have hx : x ≠ '@' := fun h => ha (h ▸ List.mem_cons_self x xs)
    have hxs : '@' ∉ xs := fun h => ha (List.mem_cons_of_mem x h)
    obtain ⟨h1, h2⟩ := ih hxs
    have hb : (x != '@') = true := by simpa using hx
    simp only [beforeAt, afterAt] at h1 h2 ⊢
    rw [List.cons_append, List.takeWhile_cons, List.dropWhile_cons]
    simp only [hb, if_true]
    exact ⟨congrArg _ h1, h2⟩

/-- The specification's wording on a list of characters. -/
theorem specValidEmail_iff (s : String) :
    specValidEmail s = true ↔
      (∀ ch ∈ s.toList, isJsSpace ch = false) ∧ s.toList.count '@' = 1 ∧
        beforeAt s.toList ≠ [] ∧
        ∃ i, 0 < i ∧ i + 1 < (afterAt s.toList).length ∧ (afterAt s.toList)[i]? = some '.' := by
  unfold specValidEmail
  simp only [Bool.and_eq_true, List.all_eq_true, Bool.not_eq_true', beq_iff_eq,
    List.isEmpty_eq_true, List.any_eq_true, List.mem_range, decide_eq_true_eq, ne_eq]
  constructor
  · rintro ⟨⟨⟨h1, h2⟩, h3⟩, i, _, ⟨hi0, hi1⟩, hi2⟩
    exact ⟨h1, h2, by simpa using h3, i, hi0, hi1, hi2⟩
  · rintro ⟨h1, h2, h3, i, hi0, hi1, hi2⟩
    exact ⟨⟨⟨h1, h2⟩, by simpa using h3⟩, i, by omega, ⟨hi0, hi1⟩, hi2⟩

theorem decomposition_iff_spec (cs : List Char) :
    (∃ a b c : List Char, cs = a ++ '@' :: (b ++ '.' :: c) ∧
        a ≠ [] ∧ b ≠ [] ∧ c ≠ [] ∧
        (∀ x ∈ a, notSpaceAt x = true) ∧ (∀ x ∈ b, notSpaceAt x = true) ∧
        (∀ x ∈ c, notSpaceAt x = true)) ↔
      ((∀ ch ∈ cs, isJsSpace ch = false) ∧ cs.count '@' = 1 ∧ beforeAt cs ≠ [] ∧
        ∃ i, 0 < i ∧ i + 1 < (afterAt cs).length ∧ (afterAt cs)[i]? = some '.') := by
  constructor
  · rintro ⟨a, b, c, rfl, ha, hb, hc, hap, hbp, hcp⟩
    have hna : '@' ∉ a := fun h => ((notSpaceAt_iff _).mp (hap _ h)).2 rfl
    have hnb : '@' ∉ b := fun h => ((notSpaceAt_iff _).mp (hbp _ h)).2 rfl
    have hnc : '@' ∉ c := fun h => ((notSpaceAt_iff _).mp (hcp _ h)).2 rfl
    obtain ⟨hbef, haft⟩ := beforeAt_afterAt_split a (b ++ '.' :: c) hna
    refine ⟨?_, ?_, ?_, ?_⟩
    · intro ch hch
      simp only [List.mem_append, List.mem_cons] at hch
      rcases hch with h | h | h | h | h
      · exact ((notSpaceAt_iff _).mp (hap _ h)).1
      · rw [h]; decide
      · exact ((notSpaceAt_iff _).mp (hbp _ h)).1
      · rw [h]; decide
      · exact ((notSpaceAt_iff _).mp (hcp _ h)).1
    · have h1 := List.count_eq_zero_of_not_mem hna
      have h2 := List.count_eq_zero_of_not_mem hnb
      have h3 := List.count_eq_zero_of_not_mem hnc
      simp [List.count_append, List.count_cons, h1, h2, h3]
    · rw [hbef]
      exact ha
    · rw [haft]
      refine ⟨b.length, List.length_pos.mpr hb, ?_, ?_⟩
      · have := List.length_pos.mpr hc
        simp only [List.length_append, List.length_cons]
        omega
      · rw [List.getElem?_append_right (le_refl _)]
        simp
  · rintro ⟨hsp, hcount, hbef, i, hi0, hi1, hget⟩
    have hmem : '@' ∈ cs := List.count_pos_iff.mp (by omega)
    obtain ⟨a, rest, rfl⟩ := List.append_of_mem hmem
    have hc2 : a.count '@' = 0 ∧ rest.count '@' = 0 := by
      simp only [List.count_append, List.count_cons, beq_self_eq_true, if_true] at hcount
      omega
    have hna : '@' ∉ a := List.count_eq_zero.mp hc2.1
    have hnr : '@' ∉ rest := List.count_eq_zero.mp hc2.2
    obtain ⟨h1, h2⟩ := beforeAt_afterAt_split a rest hna
    rw [h1] at hbef
    rw [h2] at hi1 hget
    have hilt : i < rest.length := by omega
    have hsplit : rest = rest.take i ++ '.' :: rest.drop (i + 1) := by
      have hd : rest.drop i = rest[i] :: rest.drop (i + 1) := List.drop_eq_getElem_cons hilt
      have hgi : rest[i] = '.' := by
        rw [List.getElem?_eq_getElem hilt] at hget
        exact Option.some.inj hget
      rw [hgi] at hd
      rw [← hd, List.take_append_drop]
    have hrest : ∀ x ∈ rest, notSpaceAt x = true := by
      intro x hx
      rw [notSpaceAt_iff]
      refine ⟨hsp x (by simp [hx]), ?_⟩
      intro h
      exact hnr (h ▸ hx)
    refine ⟨a, rest.take i, rest.drop (i + 1), by rw [← hsplit], hbef, ?_, ?_, ?_, ?_, ?_⟩
    · intro h
      have := congrArg List.length h
      simp only [List.length_take, List.length_nil] at this
      omega
    · intro h
      have := congrArg List.length h
      simp only [List.length_drop, List.length_nil] at this
      omega
    · intro x hx
      rw [notSpaceAt_iff]
      refine ⟨hsp x (by simp [hx]), ?_⟩
      intro h
      exact hna (h ▸ hx)
    · intro x hx
      exact hrest x (List.mem_of_mem_take hx)
    · intro x hx
      exact hrest x (List.mem_of_mem_drop hx)

/-- C11. For every string, `isValidEmail` agrees with the specification's test (no
whitespace character, exactly one `@`, at least one character before it, and in the part
after it a `.` that is neither first nor last); and it is true if and only if the string
is `a + "@" + b + "." + c` with `a`, `b`, `c` non-empty and free of whitespace and
`@`. -/
theorem isValidEmail_iff (s : String) :
    isValidEmail s = specValidEmail s ∧
    (isValidEmail s = true ↔
      (∀ ch ∈ s.toList, isJsSpace ch = false) ∧ s.toList.count '@' = 1 ∧
        beforeAt s.toList ≠ [] ∧
        ∃ i, 0 < i ∧ i + 1 < (afterAt s.toList).length ∧
          (afterAt s.toList)[i]? = some '.') ∧
    (isValidEmail s = true ↔
      ∃ a b c : String, s = a ++ "@" ++ b ++ "." ++ c ∧ a ≠ "" ∧ b ≠ "" ∧ c ≠ "" ∧
        ∀ ch ∈ a.toList ++ b.toList ++ c.toList, isJsSpace ch = false ∧ ch ≠ '@') := by
  have hdec : isValidEmail s = true ↔
      ∃ a b c : List Char, s.toList = a ++ '@' :: (b ++ '.' :: c) ∧
        a ≠ [] ∧ b ≠ [] ∧ c ≠ [] ∧
        (∀ x ∈ a, notSpaceAt x = true) ∧ (∀ x ∈ b, notSpaceAt x = true) ∧
        (∀ x ∈ c, notSpaceAt x = true) := by
    unfold isValidEmail Regex.test
    rw [Regex.matchesChars_iff, matches_emailRegex_iff]
  have hspec := hdec.trans (decomposition_iff_spec s.toList)
  refine ⟨?_, hspec, ?_⟩
  · rw [Bool.eq_iff_iff, specValidEmail_iff]
    exact hspec
  · rw [hdec]
    constructor
    · rintro ⟨a, b, c, hs, ha, hb, hc, hap, hbp, hcp⟩
      refine ⟨⟨a⟩, ⟨b⟩, ⟨c⟩, ?_, ?_, ?_, ?_, ?_⟩
      · apply String.ext
        simpa [String.toList] using hs
      · intro h
        exact ha (congrArg String.data h)
      · intro h
        exact hb (congrArg String.data h)
      · intro h
        exact hc (congrArg String.data h)
      · intro ch hch
        simp only [String.toList, List.mem_append] at hch
        rcases hch with (h | h) | h
        · exact (notSpaceAt_iff ch).mp (hap ch h)
        · exact (notSpaceAt_iff ch).mp (hbp ch h)
        · exact (notSpaceAt_iff ch).mp (hcp ch h)
    · rintro ⟨a, b, c, hs, ha, hb, hc, hall⟩
      refine ⟨a.data, b.data, c.data, ?_, ?_, ?_, ?_, ?_, ?_, ?_⟩
      · rw [hs]
        simp [String.toList]
      · intro h
        exact ha (String.ext h)
      · intro h
        exact hb (String.ext h)
      · intro h
        exact hc (String.ext h)
      · intro x hx
        exact (notSpaceAt_iff x).mpr (hall x (by simp [String.toList, hx]))
      · intro x hx
        exact (notSpaceAt_iff x).mpr (hall x (by simp [String.toList, hx]))
      · intro x hx
        exact (notSpaceAt_iff x).mpr (hall x (by simp [String.toList, hx]))


theorem isValidEmail_iff_witness :
    isValidEmail "user@example.com" = true ∧ isValidEmail "user@example" = false :=
  ⟨(isValidEmail_iff "user@example.com").2.2.mpr
      ⟨"user", "example", "com", by decide, by decide, by decide, by decide, by decide⟩,
   (isValidEmail_iff "user@example").1.trans (by decide)⟩

end Portfolio
